import Mathlib

/-!
Verification of the font-atlas construction pipeline of `imgui_freetype`
(`imgui_freetype.cpp` / `imgui_freetype.h`).

The development shallowly embeds the builder: machine integers become `ℕ`/`ℤ`
(with explicit `% 2^16` where the source casts to `ImWchar`/`uint16_t`),
C `float` values that hold integer-valued metrics and exact UV ratios become
`ℚ`, and the external FreeType library is an oracle (`FreeTypeFace`) supplying
the data the source reads from it.  The `stb_rect_pack` skyline packer, and the
few `ImFontAtlas`/`ImFont` helpers that live in the host toolkit rather than in
this repository, are modelled from the specification and marked as such.
-/

/- ===================== 1. Fixed-point metric conversion ===================== -/

/-- Identical to the source macro `FT_CEIL(X) (((X + 63) & -64) / 64)`,
at the bit level: `& -64` in two's complement clears the six low bits and the
C `/` (truncating division, `Int.tdiv`) then divides the resulting multiple
of 64.  `FT_CEIL_masked_eq` below proves it equal to `FT_CEIL`. -/
def FT_CEIL_masked (x : ℤ) : ℤ := (Int.land (x + 63) (-64)).tdiv 64

/-- Arithmetic form of the source macro `FT_CEIL`: ceiling division of `x` by
64 (clearing the low six bits of `x + 63` floors it to a multiple of 64, and
the exact division by 64 yields `⌈x / 64⌉`).  This computable form is used by
the rest of the embedding; `FT_CEIL_masked_eq` proves it coincides with the
literal bit-masked macro. -/
def FT_CEIL (x : ℤ) : ℤ := (x + 63) / 64

/-- Font-wide metrics as FreeType reports them in `FT_Size_Metrics`,
in 26.6 fixed point (1/64 pixel units). -/
structure FTSizeMetrics where
  ascender : ℤ
  descender : ℤ
  height : ℤ
  max_advance : ℤ

/-- Mirror of the `FontInfo` struct fields that `SetPixelHeight` fills
(the source stores the five converted metrics in `float` fields; they are
integer-valued, so `ℤ` embeds them exactly). -/
structure FontInfo where
  pixelHeight : ℕ
  ascender : ℤ
  descender : ℤ
  lineSpacing : ℤ
  lineGap : ℤ
  maxAdvanceWidth : ℤ

/-- Embedding of `FreeTypeFont::SetPixelHeight`: each of the five metrics is
converted from the rasterizer's 1/64-pixel fixed-point value with `FT_CEIL`. -/
def SetPixelHeight (pixel_height : ℕ) (metrics : FTSizeMetrics) : FontInfo :=
  { pixelHeight := pixel_height
    ascender := FT_CEIL metrics.ascender
    descender := FT_CEIL metrics.descender
    lineSpacing := FT_CEIL metrics.height
    lineGap := FT_CEIL (metrics.height - metrics.ascender + metrics.descender)
    maxAdvanceWidth := FT_CEIL metrics.max_advance }

/-- Rounding convention asserted by the specification for the metric
conversion: round `x / 64` to the nearest integer, halves away from zero. -/
def roundHalfAwayDiv64 (x : ℤ) : ℤ :=
  if 0 ≤ x then (x + 32) / 64 else -((-x + 32) / 64)

/- ===================== 2. Glyph rasterization buffer ===================== -/

/-- Dimensions of the rasterized bitmap the source copies out of FreeType
(`glyph_bitmap.width/height/pitch`). -/
structure GlyphBitmapDims where
  width : ℕ
  height : ℕ
  pitch : ℕ
deriving DecidableEq

/-- Mirror of `GlyphBitmap::MaxWidth`. -/
def GlyphBitmapMaxWidth : ℕ := 256

/-- Mirror of `GlyphBitmap::MaxHeight`. -/
def GlyphBitmapMaxHeight : ℕ := 256

/-- Capacity in bytes of the fixed glyph raster buffer
`uint8_t grayscale[MaxWidth * MaxHeight]`. -/
def glyphBitmapCapacity : ℕ := GlyphBitmapMaxWidth * GlyphBitmapMaxHeight

/-- The only capacity guard in `FreeTypeFont::RasterizeGlyph`:
`IM_ASSERT(glyph_bitmap.pitch <= GlyphBitmap::MaxWidth)`. -/
def rasterAssertOk (b : GlyphBitmapDims) : Bool :=
  b.pitch ≤ GlyphBitmapMaxWidth

/-- Number of bytes `RasterizeGlyph` copies into the fixed raster buffer:
`if (glyph_bitmap.width > 0) memcpy(..., glyph_bitmap.pitch * glyph_bitmap.height)`. -/
def copiedBytes (b : GlyphBitmapDims) : ℕ :=
  if 0 < b.width then b.pitch * b.height else 0

/- ===================== 3. Float-to-int truncation helper ===================== -/

/-- C cast `(int)q` for a real value: truncation toward zero (used by the
source in `(float)(int)(dst_font->Ascent + 0.5f)` and in `PixelSnapH`). -/
def truncTowardZero (q : ℚ) : ℤ :=
  if 0 ≤ q then ⌊q⌋ else -⌊-q⌋

/- ===================== 4. Rectangle packer (skyline) ===================== -/

/-- Modelled from the spec: a packed rectangle of the `stb_rect_pack` packer —
input width/height, output position, and a packed/unpacked flag (§3
PackedRect).  The source discards positions of unpacked rectangles; the model
stores `0` there (no theorem depends on them). -/
structure PackRect where
  w : ℕ
  h : ℕ
  x : ℕ
  y : ℕ
  wasPacked : Bool
deriving DecidableEq

/-- Modelled from the spec: the skyline state of the `stb_rect_pack` packer
(§4.3): for every x-column below `width`, the first free y-coordinate. -/
structure PackContext where
  width : ℕ
  height : ℕ
  sky : ℕ → ℕ

/-- Modelled from the spec: `stbrp_init_target` — an empty skyline over a
`width × height` target. -/
def stbrp_init_target (w h : ℕ) : PackContext :=
  { width := w, height := h, sky := fun _ => 0 }

/-- Highest skyline value over the column window `[x, x + w)`, i.e. the lowest
y at which a rectangle of width `w` can rest at column `x`. -/
def skylineY (sky : ℕ → ℕ) (x : ℕ) : ℕ → ℕ
  | 0 => 0
  | w + 1 => max (skylineY sky x w) (sky (x + w))

/-- Best position among columns `x < n` for a rectangle of width `w`:
lowest resting y, leftmost among ties (§4.3 lowest-y leftmost-fit). -/
def bestPosUpTo (sky : ℕ → ℕ) (w : ℕ) : ℕ → Option (ℕ × ℕ)
  | 0 => none
  | n + 1 =>
    let y := skylineY sky n w
    match bestPosUpTo sky w n with
    | none => some (n, y)
    | some p => if y < p.2 then some (n, y) else p

/-- Best in-bounds column for a rectangle of width `w` (none if `w` exceeds
the target width). -/
def bestPos (ctx : PackContext) (w : ℕ) : Option (ℕ × ℕ) :=
  bestPosUpTo ctx.sky w (ctx.width + 1 - w)

/-- Raise the skyline to `v` on the column window `[x, x + w)`. -/
def raiseSky (sky : ℕ → ℕ) (x w v : ℕ) : ℕ → ℕ :=
  fun c => if x ≤ c ∧ c < x + w then v else sky c

/-- Modelled from the spec: packing one rectangle (`stbrp_pack_rects` with one
rectangle, as the builder calls it): place at the lowest-y leftmost fit if the
rectangle fits under the height bound, raise the skyline there; otherwise
report it unpacked. -/
def packOne (ctx : PackContext) (w h : ℕ) : PackContext × PackRect :=
  match bestPos ctx w with
  | none => (ctx, ⟨w, h, 0, 0, false⟩)
  | some p =>
    if p.2 + h ≤ ctx.height then
      ({ ctx with sky := raiseSky ctx.sky p.1 w (p.2 + h) }, ⟨w, h, p.1, p.2, true⟩)
    else
      (ctx, ⟨w, h, 0, 0, false⟩)

/-- Sequentially pack a list of rectangle sizes, returning the final skyline
state and the packed rectangles in order. -/
def packAll (ctx : PackContext) (sizes : List (ℕ × ℕ)) : PackContext × List PackRect :=
  sizes.foldl (fun st p =>
    let pr := packOne st.1 p.1 p.2
    (pr.1, st.2 ++ [pr.2])) (ctx, [])

/-- Two rectangles overlap when their x-spans and y-spans both intersect. -/
def rectsOverlap (a b : PackRect) : Prop :=
  a.x < b.x + b.w ∧ b.x < a.x + a.w ∧ a.y < b.y + b.h ∧ b.y < a.y + a.h

/-- A packed rectangle is well-placed for a `W × H` target under skyline
`sky`: nonzero width, fully in bounds, and the skyline on its columns has
been raised past its top edge. -/
def RectGood (W H : ℕ) (sky : ℕ → ℕ) (r : PackRect) : Prop :=
  r.wasPacked = true →
    1 ≤ r.w ∧ r.x + r.w ≤ W ∧ r.y + r.h ≤ H ∧
    ∀ c, r.x ≤ c → c < r.x + r.w → r.y + r.h ≤ sky c

/-- Invariant of the sequential packer: every rectangle packed so far is
well-placed and no two packed rectangles overlap. -/
def PackInv (W H : ℕ) (sky : ℕ → ℕ) (rs : List PackRect) : Prop :=
  (∀ r ∈ rs, RectGood W H sky r) ∧
  rs.Pairwise (fun a b => a.wasPacked = true → b.wasPacked = true → ¬ rectsOverlap a b)

/- ===================== 5. Fonts, configs and the FreeType oracle ===================== -/

/-- Mirror of `ImFont::Glyph` as the builder fills it (float fields embedded
as exact rationals). -/
structure ImFontGlyph where
  codepoint : ℕ
  x0 : ℚ
  y0 : ℚ
  x1 : ℚ
  y1 : ℚ
  u0 : ℚ
  v0 : ℚ
  u1 : ℚ
  v1 : ℚ
  advanceX : ℚ

/-- Mirror of the `ImFont` state the builder reads and writes: the glyph
table, the codepoints findable through the lookup table that
`BuildLookupTable` (re)builds (the builder sets `FallbackGlyph = NULL`
before the loop, so `FindGlyph` returns null exactly on codepoints absent
from that table), and the ascent/descent that `ImFontAtlasBuildSetupFont`
assigns. -/
structure ImFont where
  glyphs : List ImFontGlyph
  indexLookup : List ℕ
  ascent : ℚ
  descent : ℚ

/-- Fresh destination font. -/
def emptyFont : ImFont := { glyphs := [], indexLookup := [], ascent := 0, descent := 0 }

/-- Modelled from the spec: `ImFont::FindGlyph` restricted to what the builder
uses — whether the codepoint is present in the font's lookup table (§6
lookup-by-codepoint accessor; the host-toolkit function itself is not part of
this repository). -/
def findGlyphHit (f : ImFont) (cp : ℕ) : Bool :=
  f.indexLookup.elem cp

/-- Modelled from the spec: `ImFont::BuildLookupTable` restricted to what the
builder relies on — after a font's codepoint loop, its lookup table indexes
exactly the codepoints of its glyph table (§4.4 step 6). -/
def buildLookupTable (f : ImFont) : ImFont :=
  { f with indexLookup := f.glyphs.map (fun g => g.codepoint) }

/-- Modelled from the spec: `ImFontAtlasBuildSetupFont` — in merge mode the
destination font keeps its table and metrics; otherwise it is reset and takes
the new ascent/descent (§3 FontGlyphTable, §4.4). -/
def buildSetupFont (font : ImFont) (mergeMode : Bool) (ascent descent : ℚ) : ImFont :=
  if mergeMode then font
  else { glyphs := [], indexLookup := [], ascent := ascent, descent := descent }

/-- Mirror of the `ImFontConfig` fields the builder reads.  `dstFontIdx`
identifies `cfg.DstFont` as an index into the atlas font list.  Glyph ranges
are the `(low, high)` pairs before the zero terminator, `none` when the caller
left `GlyphRanges` null. -/
structure ImFontConfig where
  sizePixels : ℕ
  mergeMode : Bool
  mergeGlyphCenterV : Bool
  glyphOffsetX : ℚ
  glyphOffsetY : ℚ
  glyphExtraSpacingX : ℚ
  pixelSnapH : Bool
  glyphRanges : Option (List (ℕ × ℕ))
  rasterizerFlags : ℕ
  dstFontIdx : ℕ

/-- Data FreeType hands back for one loaded-and-rendered glyph
(`slot->advance.x` in 26.6 units, `FT_BitmapGlyph` left/top and bitmap
width/rows/pitch). -/
structure FTGlyphData where
  advanceX64 : ℤ
  left : ℤ
  top : ℤ
  width : ℕ
  rows : ℕ
  pitch : ℕ

/-- Oracle for the external FreeType face: whether `Init`'s three FreeType
calls succeed, the `FT_Size_Metrics` at a requested pixel height, the
character map (`FT_Get_Char_Index`, 0 when the codepoint has no mapping), and
the outcome of loading+rendering a glyph index under given font flags (`none`
models a failure of `FT_Load_Glyph` / `FT_Get_Glyph` / `FT_Glyph_To_Bitmap`). -/
structure FreeTypeFace where
  initOk : Bool
  metricsAt : ℕ → FTSizeMetrics
  charIndex : ℕ → ℕ
  loadGlyph : ℕ → ℕ → Option FTGlyphData

/-- Per-glyph metrics `RasterizeGlyph` fills into `GlyphInfo` (float fields
embedded as exact rationals). -/
structure GlyphInfo where
  width : ℚ
  height : ℚ
  offsetX : ℚ
  offsetY : ℚ
  advanceX : ℚ

/-- Embedding of `FreeTypeFont::RasterizeGlyph`: map the codepoint through the
character map, load and render through the oracle, and convert the results
exactly as the source does (`AdvanceX = FT_CEIL(slot->advance.x)`,
`OffsetY = -top`, bitmap dims copied). -/
def RasterizeGlyph (face : FreeTypeFace) (fontFlags : ℕ) (codepoint : ℕ) :
    Option (GlyphInfo × GlyphBitmapDims) :=
  let glyph_index := face.charIndex codepoint
  match face.loadGlyph fontFlags glyph_index with
  | none => none
  | some d =>
    some ({ width := (d.width : ℚ), height := (d.rows : ℚ),
            offsetX := (d.left : ℚ), offsetY := (-d.top : ℚ),
            advanceX := ((FT_CEIL d.advanceX64 : ℤ) : ℚ) },
          { width := d.width, height := d.rows, pitch := d.pitch })

/- ===================== 6. Atlas assembler ===================== -/

/-- Modelled from the spec: the builtin Latin default range set substituted by
`atlas->GetGlyphRangesDefault()` when a config carries no explicit ranges
(§6: "defaulting to a builtin Latin-range set"; the function itself lives in
the host toolkit, not in this repository). -/
def defaultGlyphRanges : List (ℕ × ℕ) := [(0x20, 0xFF)]

/-- Config after the builder's `if (!cfg.GlyphRanges) cfg.GlyphRanges = ...`
default substitution. -/
def substRangesCfg (cfg : ImFontConfig) : ImFontConfig :=
  { cfg with glyphRanges := some (cfg.glyphRanges.getD defaultGlyphRanges) }

/-- Codepoints visited by the builder's nested range loop
`for each (lo, hi); for codepoint = lo .. hi` (a range with `lo > hi` runs
zero iterations). -/
def expandRanges : List (ℕ × ℕ) → List ℕ
  | [] => []
  | p :: rest => List.range' p.1 (p.2 + 1 - p.1) ++ expandRanges rest

/-- Signed glyph-count total of the builder's counting loop
`total_glyphs_count += (in_range[1] - in_range[0]) + 1` (int arithmetic). -/
def rangesGlyphCount (rs : List (ℕ × ℕ)) : ℤ :=
  rs.foldl (fun t p => t + (((p.2 : ℤ) - (p.1 : ℤ)) + 1)) 0

/-- Sequential `FreeTypeFont::Init` loop of `BuildFontAtlas`: fails (returns
`none`, the builder's early `return false`) at the first face whose FreeType
initialization fails; otherwise yields each config with ranges substituted,
its `m_info` from `SetPixelHeight`, and its face. -/
def initFonts : List (ImFontConfig × FreeTypeFace) →
    Option (List (ImFontConfig × FontInfo × FreeTypeFace))
  | [] => some []
  | (cfg, face) :: rest =>
    if face.initOk = true then
      match initFonts rest with
      | none => none
      | some l =>
        some ((substRangesCfg cfg,
               SetPixelHeight cfg.sizePixels (face.metricsAt cfg.sizePixels),
               face) :: l)
    else none

/-- Running maximum `max_glyph_size.x` (starts at `1.0f`, folds in each
font's `MaxAdvanceWidth`). -/
def maxGlyphSizeX (inited : List (ImFontConfig × FontInfo × FreeTypeFace)) : ℤ :=
  inited.foldl (fun m e => max m e.2.1.maxAdvanceWidth) 1

/-- Running maximum `max_glyph_size.y` (starts at `1.0f`, folds in each
font's `Ascender - Descender`). -/
def maxGlyphSizeY (inited : List (ImFontConfig × FontInfo × FreeTypeFace)) : ℤ :=
  inited.foldl (fun m e => max m (e.2.1.ascender - e.2.1.descender)) 1

/-- Total requested glyph count over all configs (after range substitution). -/
def totalGlyphsCount (inited : List (ImFontConfig × FontInfo × FreeTypeFace)) : ℤ :=
  inited.foldl (fun t e => t + rangesGlyphCount (e.1.glyphRanges.getD defaultGlyphRanges)) 0

/-- Texture width heuristic of the builder: the caller's desired width if
positive, else the ladder keyed by the total glyph count. -/
def chooseTexWidth (desired : ℕ) (total : ℤ) : ℕ :=
  if 0 < desired then desired
  else if 4000 < total then 4096
  else if 2000 < total then 2048
  else if 1000 < total then 1024
  else 512

/-- Ceiling division on naturals (`ceilf` of an exact nonnegative ratio). -/
def cdiv (a b : ℕ) : ℕ := (a + b - 1) / b

/-- Texture height estimate of the builder: rectangles per row from the
texture width and the `(max_glyph_size.x + 1)` cell width, rows needed for
`total_rects`, times the `(max_glyph_size.y + 1)` cell height. -/
def texHeightEstimate (texW maxXN maxYN totalRects : ℕ) : ℕ :=
  let min_rects_per_row := cdiv texW (maxXN + 1)
  let min_rects_per_column := cdiv totalRects min_rects_per_row
  min_rects_per_column * (maxYN + 1)

/-- Fuel-driven computation of the least power of two ≥ `v`. -/
def upperPow2Go : ℕ → ℕ → ℕ
  | 0, _ => 1
  | fuel + 1, v => if v ≤ 1 then 1 else 2 * upperPow2Go fuel ((v + 1) / 2)

/-- Modelled from the spec: `ImUpperPowerOfTwo` of the host toolkit — the
estimated height rounded up to the next power of two (§4.2). -/
def ImUpperPowerOfTwo (v : ℕ) : ℕ := upperPow2Go v v

/-- Modelled from the spec: `ImFontAtlasBuildRegisterDefaultCustomRects` —
the host toolkit pre-registers its builtin non-glyph rectangle (solid white
pixel block) among the reserved custom rectangles (§4.2 reserved cells). -/
def registerDefaultCustomRects (rects : List (ℕ × ℕ)) : List (ℕ × ℕ) :=
  rects ++ [(2, 2)]

/-- Glyph entry appended by the builder's inner loop body (source lines
`glyph.Codepoint = (ImWchar)codepoint` through `glyph.XAdvance`); positions
come from the packed rectangle, UVs divide by the final texture extent. -/
def mkGlyph (texW texH : ℕ) (cfg : ImFontConfig) (off_x off_y : ℚ)
    (gi : GlyphInfo) (rect : PackRect) (codepoint : ℕ) : ImFontGlyph :=
  let x0 := gi.offsetX + off_x
  let y0 := gi.offsetY + off_y
  let adv := gi.advanceX + cfg.glyphExtraSpacingX
  { codepoint := codepoint % 65536
    x0 := x0
    y0 := y0
    x1 := x0 + gi.width
    y1 := y0 + gi.height
    u0 := (rect.x : ℚ) / (texW : ℚ)
    v0 := (rect.y : ℚ) / (texH : ℚ)
    u1 := ((rect.x : ℚ) + gi.width) / (texW : ℚ)
    v1 := ((rect.y : ℚ) + gi.height) / (texH : ℚ)
    advanceX := if cfg.pixelSnapH then ((truncTowardZero (adv + 1/2) : ℤ) : ℚ) else adv }

/-- Ghost record of one executed loop body: the appended glyph, the rectangle
the packer returned for it, and the rasterized metrics that produced it.  The
source discards the rectangle after blitting; it is recorded here so the
packing and UV invariants can be stated. -/
structure TraceEntry where
  glyph : ImFontGlyph
  rect : PackRect
  info : GlyphInfo
  cp : ℕ

/-- Inert default used only as the `List.getD` fallback when indexing a
trace. -/
def blankTraceEntry : TraceEntry :=
  ⟨⟨0, 0, 0, 0, 0, 0, 0, 0, 0, 0⟩, ⟨0, 0, 0, 0, false⟩, ⟨0, 0, 0, 0, 0⟩, 0⟩

/-- State threaded through one font's codepoint loop. -/
structure ProcState where
  ctx : PackContext
  font : ImFont
  trace : List TraceEntry

/-- Body of the builder's per-codepoint loop: skip when in merge mode and the
destination font already has the codepoint (`FindGlyph((unsigned short)cp)`
against the stale lookup table); otherwise rasterize (the source ignores the
return value — on failure `glyph_info`/`glyph_bitmap` stay uninitialized,
modelled as zeroes; no theorem depends on those values), pack a rectangle one
pixel larger than the bitmap (`(uint16_t)` casts as in the source), and append
the glyph entry. -/
def processCodepoint (texW texH : ℕ) (cfg : ImFontConfig) (face : FreeTypeFace)
    (fontFlags : ℕ) (off_x off_y : ℚ) (st : ProcState) (cp : ℕ) : ProcState :=
  if cfg.mergeMode && findGlyphHit st.font (cp % 65536) then st
  else
    let rast := RasterizeGlyph face fontFlags cp
    let gi := (rast.map Prod.fst).getD ⟨0, 0, 0, 0, 0⟩
    let bm := (rast.map Prod.snd).getD ⟨0, 0, 0⟩
    let pr := packOne st.ctx (bm.width % 65536 + 1) (bm.height % 65536 + 1)
    let g := mkGlyph texW texH cfg off_x off_y gi pr.2 cp
    { ctx := pr.1
      font := { st.font with glyphs := st.font.glyphs ++ [g] }
      trace := st.trace ++ [⟨g, pr.2, gi, cp⟩] }

/-- One font's pass of the builder's main loop: set up the destination font,
compute the pen offsets (`off_y = cfg.GlyphOffset.y + (float)(int)(dst_font->Ascent + 0.5f)`),
run the codepoint loop over the config's ranges, then rebuild the lookup
table.  `cfg.mergeGlyphCenterV` is accepted but — like the source — never
read by the loop. -/
def processFont (texW texH extraFlags : ℕ) (cfg : ImFontConfig) (face : FreeTypeFace)
    (info : FontInfo) (ctx : PackContext) (font : ImFont) : ProcState :=
  let fontFlags := cfg.rasterizerFlags ||| extraFlags
  let ascent : ℚ := (info.ascender : ℚ)
  let descent : ℚ := (info.descender : ℚ)
  let font0 := buildSetupFont font cfg.mergeMode ascent descent
  let off_x := cfg.glyphOffsetX
  let off_y := cfg.glyphOffsetY + ((truncTowardZero (font0.ascent + 1/2) : ℤ) : ℚ)
  let cps := expandRanges (cfg.glyphRanges.getD defaultGlyphRanges)
  let st := cps.foldl (processCodepoint texW texH cfg face fontFlags off_x off_y)
    ⟨ctx, font0, []⟩
  { st with font := buildLookupTable st.font }

/-- Mirror of the `ImFontAtlas` state the builder reads and writes.
`texAllocated` stands for `TexPixelsAlpha8` being a live allocation (the
blitted pixel contents are not modelled; no claim concerns them). -/
structure ImFontAtlas where
  configData : List ImFontConfig
  customRects : List (ℕ × ℕ)
  texDesiredWidth : ℕ
  texWidth : ℕ
  texHeight : ℕ
  texAllocated : Bool
  fonts : List ImFont

/-- State of the builder's outer per-config loop, with the ghost rectangle
trace. -/
structure BuildLoopState where
  ctx : PackContext
  fonts : List ImFont
  rects : List PackRect

/-- One config's step of the outer loop: fetch the destination font, run the
font pass, store the font back and accumulate the ghost rectangles. -/
def processConfig (texW texH extraFlags : ℕ) (st : BuildLoopState)
    (e : ImFontConfig × FontInfo × FreeTypeFace) : BuildLoopState :=
  let cfg := e.1
  let font := st.fonts.getD cfg.dstFontIdx emptyFont
  let ps := processFont texW texH extraFlags cfg e.2.2 e.2.1 st.ctx font
  { ctx := ps.ctx
    fonts := st.fonts.set cfg.dstFontIdx ps.font
    rects := st.rects ++ ps.trace.map (fun t => t.rect) }

/-- Result of a build: the source's boolean return, the mutated atlas, and
the ghost list of every rectangle passed through the packer. -/
structure BuildResult where
  ok : Bool
  atlas : ImFontAtlas
  rects : List PackRect

/-- Embedding of `ImGuiFreeType::BuildFontAtlas`: register the default custom
rectangles, clear the texture state, initialize every font (any failure
returns immediately), pick the texture width, estimate and round up the
texture height, allocate, pack the custom rectangles first, then run the
per-font glyph loops. -/
def BuildFontAtlas (atlas : ImFontAtlas) (faces : List FreeTypeFace)
    (extraFlags : ℕ) : BuildResult :=
  let atlas1 : ImFontAtlas :=
    { atlas with
      customRects := registerDefaultCustomRects atlas.customRects
      texWidth := 0
      texHeight := 0
      texAllocated := false }
  match initFonts (atlas1.configData.zip faces) with
  | none => ⟨false, atlas1, []⟩
  | some inited =>
    let texW := chooseTexWidth atlas1.texDesiredWidth (totalGlyphsCount inited)
    let totalRects := (totalGlyphsCount inited).toNat + atlas1.customRects.length
    let est := texHeightEstimate texW (maxGlyphSizeX inited).toNat
      (maxGlyphSizeY inited).toNat totalRects
    let texH := ImUpperPowerOfTwo est
    let ctx0 := stbrp_init_target texW texH
    let packedCustom := packAll ctx0 atlas1.customRects
    let final := inited.foldl (processConfig texW texH extraFlags)
      ⟨packedCustom.1, atlas1.fonts, packedCustom.2⟩
    ⟨true,
     { atlas1 with
       texWidth := texW
       texHeight := texH
       texAllocated := true
       fonts := final.fonts },
     final.rects⟩

/-- Canonical value of the init loop when every face initializes: each config
with ranges substituted, its `SetPixelHeight` metrics, and its face
(`initFonts_all_ok` proves the builder computes exactly this). -/
def initedCanon (atlas : ImFontAtlas) (faces : List FreeTypeFace) :
    List (ImFontConfig × FontInfo × FreeTypeFace) :=
  (atlas.configData.zip faces).map (fun p =>
    (substRangesCfg p.1, SetPixelHeight p.1.sizePixels (p.2.metricsAt p.1.sizePixels), p.2))

/-- Vertical shift asserted by the specification for an appended glyph: the
destination font's ascent, plus — in merge mode with center-vertical
alignment requested — half the ascender difference between the merged source
font and the destination font. -/
def specVerticalShift (dstAscent srcAscender : ℚ) (mergeMode centerV : Bool) : ℚ :=
  dstAscent + (if mergeMode && centerV then (srcAscender - dstAscent) / 2 else 0)

/- ===================== 7. Bit-level facts about FT_CEIL ===================== -/

theorem testBit_mul64_add (k b i : ℕ) (hb : b < 64) :
    (64 * k + b).testBit i = if i < 6 then b.testBit i else k.testBit (i - 6) := by
  rcases Nat.lt_or_ge i 6 with hi | hi
  · rw [if_pos hi, Nat.testBit_to_div_mod, Nat.testBit_to_div_mod]
    have h64 : 64 * k + b = b + 2 ^ i * (2 ^ (6 - i) * k) := by
      have hp : 2 ^ i * 2 ^ (6 - i) = 64 := by
        rw [← pow_add]
        have h6 : i + (6 - i) = 6 := by omega
        rw [h6]
        norm_num
      calc 64 * k + b = b + 2 ^ i * 2 ^ (6 - i) * k := by rw [hp]; ring
        _ = b + 2 ^ i * (2 ^ (6 - i) * k) := by ring
    rw [h64, Nat.add_mul_div_left _ _ (Nat.two_pow_pos i)]
    have h2 : 2 ^ (6 - i) * k = 2 * (2 ^ (5 - i) * k) := by
      have h5 : 6 - i = (5 - i) + 1 := by omega
      rw [h5, pow_succ]
      ring
    rw [h2, Nat.add_mul_mod_self_left]
  · rw [if_neg (by omega), Nat.testBit_to_div_mod, Nat.testBit_to_div_mod]
    have hpi : 2 ^ i = 64 * 2 ^ (i - 6) := by
      calc 2 ^ i = 2 ^ (6 + (i - 6)) := by congr 1; omega
        _ = 64 * 2 ^ (i - 6) := by rw [pow_add]; norm_num
    rw [hpi, ← Nat.div_div_eq_div_mul]
    have hq : (64 * k + b) / 64 = k := by omega
    rw [hq]

theorem ldiff_63 (m : ℕ) : Nat.ldiff m 63 = 64 * (m / 64) := by
  apply Nat.eq_of_testBit_eq
  intro i
  rw [Nat.testBit_ldiff]
  have h63 : Nat.testBit 63 i = decide (i < 6) := by
    have h := Nat.testBit_two_pow_sub_one 6 i
    norm_num at h
    exact h
  have hm : Nat.testBit m i
      = if i < 6 then Nat.testBit (m % 64) i else Nat.testBit (m / 64) (i - 6) := by
    conv_lhs => rw [show m = 64 * (m / 64) + m % 64 by omega]
    exact testBit_mul64_add _ _ i (by omega)
  have hr : Nat.testBit (64 * (m / 64)) i
      = if i < 6 then false else Nat.testBit (m / 64) (i - 6) := by
    have h := testBit_mul64_add (m / 64) 0 i (by norm_num)
    simpa using h
  rw [h63, hm, hr]
  rcases Nat.lt_or_ge i 6 with hi | hi
  · simp [hi]
  · simp [Nat.not_lt.mpr hi]

theorem lor_63 (m : ℕ) : m ||| 63 = 64 * (m / 64) + 63 := by
  apply Nat.eq_of_testBit_eq
  intro i
  rw [Nat.testBit_lor]
  have h63 : Nat.testBit 63 i = decide (i < 6) := by
    have h := Nat.testBit_two_pow_sub_one 6 i
    norm_num at h
    exact h
  have hm : Nat.testBit m i
      = if i < 6 then Nat.testBit (m % 64) i else Nat.testBit (m / 64) (i - 6) := by
    conv_lhs => rw [show m = 64 * (m / 64) + m % 64 by omega]
    exact testBit_mul64_add _ _ i (by omega)
  have hr : Nat.testBit (64 * (m / 64) + 63) i
      = if i < 6 then Nat.testBit 63 i else Nat.testBit (m / 64) (i - 6) :=
    testBit_mul64_add _ _ i (by norm_num)
  rw [h63, hm, hr, h63]
  rcases Nat.lt_or_ge i 6 with hi | hi
  · simp [hi]
  · simp [Nat.not_lt.mpr hi]

theorem int_land_neg64 (x : ℤ) : Int.land x (-64) = 64 * (x / 64) := by
  have hneg : (-64 : ℤ) = Int.negSucc 63 := rfl
  cases x with
  | ofNat m =>
    have h1 : Int.land (Int.ofNat m) (-64) = ((Nat.ldiff m 63 : ℕ) : ℤ) := by
      rw [hneg]
      rfl
    have h2 : (Int.ofNat m) / 64 = ((m / 64 : ℕ) : ℤ) := by
      rw [show Int.ofNat m = ((m : ℕ) : ℤ) from rfl, Int.natCast_div]
      norm_num
    rw [h1, ldiff_63, h2]
    push_cast
    ring
  | negSucc m =>
    have h1 : Int.land (Int.negSucc m) (-64) = Int.negSucc (m ||| 63) := by
      rw [hneg]
      rfl
    have h2 : (Int.negSucc m) / 64 = -(((m / 64 : ℕ) : ℤ) + 1) := by
      rw [Int.negSucc_ediv m (by norm_num)]
      rfl
    rw [h1, lor_63, h2, Int.negSucc_eq]
    push_cast
    ring

theorem FT_CEIL_masked_eq (x : ℤ) : FT_CEIL_masked x = FT_CEIL x := by
  unfold FT_CEIL_masked FT_CEIL
  rw [int_land_neg64, Int.mul_tdiv_cancel_left _ (by norm_num)]

theorem FT_CEIL_bounds (x : ℤ) : x ≤ 64 * FT_CEIL x ∧ 64 * FT_CEIL x < x + 64 := by
  unfold FT_CEIL
  have h1 := Int.ediv_add_emod (x + 63) 64
  have h2 := Int.emod_nonneg (x + 63) (show (64 : ℤ) ≠ 0 by norm_num)
  have h3 := Int.emod_lt_of_pos (x + 63) (show (0 : ℤ) < 64 by norm_num)
  omega

/- ===================== 8. Packer invariants ===================== -/

theorem skylineY_le (sky : ℕ → ℕ) (x w c : ℕ) (h1 : x ≤ c) (h2 : c < x + w) :
    sky c ≤ skylineY sky x w := by
  induction w with
  | zero => omega
  | succ n ih =>
    show sky c ≤ max (skylineY sky x n) (sky (x + n))
    rcases Nat.lt_or_ge c (x + n) with h | h
    · exact le_trans (ih h) (le_max_left _ _)
    · have hc : c = x + n := by omega
      subst hc
      exact le_max_right _ _

theorem bestPosUpTo_spec (sky : ℕ → ℕ) (w : ℕ) :
    ∀ n p, bestPosUpTo sky w n = some p → p.1 < n ∧ p.2 = skylineY sky p.1 w := by
  intro n
  induction n with
  | zero =>
    intro p h
    simp [bestPosUpTo] at h
  | succ m ih =>
    intro p h
    rw [show bestPosUpTo sky w (m + 1)
        = (match bestPosUpTo sky w m with
           | none => some (m, skylineY sky m w)
           | some q => if skylineY sky m w < q.2 then some (m, skylineY sky m w) else q)
        from rfl] at h
    cases hrec : bestPosUpTo sky w m with
    | none =>
      rw [hrec] at h
      simp only [Option.some.injEq] at h
      subst h
      exact ⟨Nat.lt_succ_self m, rfl⟩
    | some q =>
      rw [hrec] at h
      simp only at h
      split at h
      · simp only [Option.some.injEq] at h
        subst h
        exact ⟨Nat.lt_succ_self m, rfl⟩
      · simp only [Option.some.injEq] at h
        subst h
        obtain ⟨hq1, hq2⟩ := ih q hrec
        exact ⟨Nat.lt_succ_of_lt hq1, hq2⟩

theorem raiseSky_le (sky : ℕ → ℕ) (x w v : ℕ)
    (hv : ∀ c, x ≤ c → c < x + w → sky c ≤ v) :
    ∀ c, sky c ≤ raiseSky sky x w v c := by
  intro c
  unfold raiseSky
  split
  · next hc => exact hv c hc.1 hc.2
  · exact le_refl _

theorem RectGood_mono {W H : ℕ} {sky sky2 : ℕ → ℕ} (hmono : ∀ c, sky c ≤ sky2 c)
    {r : PackRect} (h : RectGood W H sky r) : RectGood W H sky2 r := by
  intro hp
  obtain ⟨h1, h2, h3, h4⟩ := h hp
  exact ⟨h1, h2, h3, fun c hc1 hc2 => le_trans (h4 c hc1 hc2) (hmono c)⟩

theorem packOne_inv {W H : ℕ} (ctx : PackContext) (rs : List PackRect) (w h : ℕ)
    (hW : ctx.width = W) (hH : ctx.height = H) (hw : 1 ≤ w)
    (hinv : PackInv W H ctx.sky rs) :
    (packOne ctx w h).1.width = W ∧ (packOne ctx w h).1.height = H ∧
    (∀ c, ctx.sky c ≤ (packOne ctx w h).1.sky c) ∧
    PackInv W H (packOne ctx w h).1.sky (rs ++ [(packOne ctx w h).2]) := by
  have hunpacked : ∀ r0 : PackRect, r0.wasPacked = false →
      PackInv W H ctx.sky (rs ++ [r0]) := by
    intro r0 hr0
    constructor
    · intro r hr
      rcases List.mem_append.mp hr with hr | hr
      · exact hinv.1 r hr
      · simp at hr
        subst hr
        intro hp
        rw [hr0] at hp
        cases hp
    · refine List.pairwise_append.mpr ⟨hinv.2, ?_, ?_⟩
      · simp
      · intro a _ b hb
        simp at hb
        subst hb
        intro _ hpb
        rw [hr0] at hpb
        cases hpb
  unfold packOne
  cases hbp : bestPos ctx w with
  | none =>
    simp only
    exact ⟨hW, hH, fun c => le_refl _, hunpacked _ rfl⟩
  | some p =>
    simp only
    split
    · next hle =>
      unfold bestPos at hbp
      obtain ⟨hlt, hy⟩ := bestPosUpTo_spec ctx.sky w _ p hbp
      have hxw : p.1 + w ≤ W := by omega
      have hyH : p.2 + h ≤ H := by omega
      have hwin : ∀ c, p.1 ≤ c → c < p.1 + w → ctx.sky c ≤ p.2 := by
        intro c hc1 hc2
        rw [hy]
        exact skylineY_le _ _ _ _ hc1 hc2
      have hmono : ∀ c, ctx.sky c ≤ raiseSky ctx.sky p.1 w (p.2 + h) c :=
        raiseSky_le _ _ _ _ (fun c hc1 hc2 => le_trans (hwin c hc1 hc2) (by omega))
      refine ⟨hW, hH, hmono, ?_, ?_⟩
      · intro r hr
        rcases List.mem_append.mp hr with hr | hr
        · exact RectGood_mono hmono (hinv.1 r hr)
        · simp at hr
          subst hr
          intro _
          refine ⟨hw, hxw, hyH, ?_⟩
          intro c hc1 hc2
          show p.2 + h ≤ if p.1 ≤ c ∧ c < p.1 + w then p.2 + h else ctx.sky c
          rw [if_pos ⟨hc1, hc2⟩]
      · refine List.pairwise_append.mpr ⟨?_, by simp, ?_⟩
        · exact List.Pairwise.imp
            (fun {a b} hab hpa hpb => hab hpa hpb) hinv.2
        · intro a ha b hb
          simp at hb
          subst hb
          intro hpa _ hov
          obtain ⟨o1, o2, o3, o4⟩ := hov
          obtain ⟨haw, _, _, hdom⟩ := hinv.1 a ha hpa
          rcases Nat.le_total a.x p.1 with hab | hab
          · have hskyc : ctx.sky p.1 ≤ p.2 := hwin p.1 (le_refl _) (by omega)
            have hdomc := hdom p.1 hab (by simp at o2; omega)
            simp at o4
            omega
          · have hskyc : ctx.sky a.x ≤ p.2 := hwin a.x hab (by simp at o1; omega)
            have hdomc := hdom a.x (le_refl _) (by omega)
            simp at o4
            omega
    · next hle =>
      exact ⟨hW, hH, fun c => le_refl _, hunpacked _ rfl⟩

theorem packFold_inv {W H : ℕ} :
    ∀ (sizes : List (ℕ × ℕ)) (st : PackContext × List PackRect),
      st.1.width = W → st.1.height = H → (∀ p ∈ sizes, 1 ≤ p.1) →
      PackInv W H st.1.sky st.2 →
      ((sizes.foldl (fun st p =>
          let pr := packOne st.1 p.1 p.2
          (pr.1, st.2 ++ [pr.2])) st).1.width = W ∧
       (sizes.foldl (fun st p =>
          let pr := packOne st.1 p.1 p.2
          (pr.1, st.2 ++ [pr.2])) st).1.height = H ∧
       PackInv W H
         (sizes.foldl (fun st p =>
            let pr := packOne st.1 p.1 p.2
            (pr.1, st.2 ++ [pr.2])) st).1.sky
         (sizes.foldl (fun st p =>
            let pr := packOne st.1 p.1 p.2
            (pr.1, st.2 ++ [pr.2])) st).2) := by
  intro sizes
  induction sizes with
  | nil =>
    intro st hW hH _ hinv
    exact ⟨hW, hH, hinv⟩
  | cons p rest ih =>
    intro st hW hH hs hinv
    rw [List.foldl_cons]
    have hstep := packOne_inv st.1 st.2 p.1 p.2 hW hH
      (hs p (by simp)) hinv
    exact ih _ hstep.1 hstep.2.1
      (fun q hq => hs q (by simp [hq]))
      hstep.2.2.2
/- ===================== 9. Codepoint-loop lemmas ===================== -/

theorem processCodepoint_skip (texW texH : ℕ) (cfg : ImFontConfig) (face : FreeTypeFace)
    (fontFlags : ℕ) (off_x off_y : ℚ) (st : ProcState) (cp : ℕ)
    (h : (cfg.mergeMode && findGlyphHit st.font (cp % 65536)) = true) :
    processCodepoint texW texH cfg face fontFlags off_x off_y st cp = st := by
  unfold processCodepoint
  rw [if_pos h]

theorem processCodepoint_lookup (texW texH : ℕ) (cfg : ImFontConfig) (face : FreeTypeFace)
    (fontFlags : ℕ) (off_x off_y : ℚ) (st : ProcState) (cp : ℕ) :
    (processCodepoint texW texH cfg face fontFlags off_x off_y st cp).font.indexLookup
      = st.font.indexLookup := by
  unfold processCodepoint
  split
  · rfl
  · rfl

theorem processCodepoint_ascent (texW texH : ℕ) (cfg : ImFontConfig) (face : FreeTypeFace)
    (fontFlags : ℕ) (off_x off_y : ℚ) (st : ProcState) (cp : ℕ) :
    (processCodepoint texW texH cfg face fontFlags off_x off_y st cp).font.ascent
      = st.font.ascent := by
  unfold processCodepoint
  split
  · rfl
  · rfl

theorem processCodepoint_glyphs_map (texW texH : ℕ) (cfg : ImFontConfig) (face : FreeTypeFace)
    (fontFlags : ℕ) (off_x off_y : ℚ) (st : ProcState) (cp : ℕ)
    (h : ¬ (cfg.mergeMode && findGlyphHit st.font (cp % 65536)) = true) :
    (processCodepoint texW texH cfg face fontFlags off_x off_y st cp).font.glyphs.map
        (fun g => g.codepoint)
      = st.font.glyphs.map (fun g => g.codepoint) ++ [cp % 65536] := by
  unfold processCodepoint
  rw [if_neg h]
  simp [mkGlyph]

theorem processCodepoint_trace_mem (texW texH : ℕ) (cfg : ImFontConfig) (face : FreeTypeFace)
    (fontFlags : ℕ) (off_x off_y : ℚ) (st : ProcState) (cp : ℕ) :
    ∀ e ∈ (processCodepoint texW texH cfg face fontFlags off_x off_y st cp).trace,
      e ∈ st.trace ∨ e.glyph = mkGlyph texW texH cfg off_x off_y e.info e.rect e.cp := by
  unfold processCodepoint
  split
  · intro e he
    exact Or.inl he
  · intro e he
    rcases List.mem_append.mp he with he | he
    · exact Or.inl he
    · simp at he
      subst he
      exact Or.inr rfl

theorem processCodepoint_pack (texW texH : ℕ) (cfg : ImFontConfig) (face : FreeTypeFace)
    (fontFlags : ℕ) (off_x off_y : ℚ) (st : ProcState) (cp : ℕ)
    (h : ¬ (cfg.mergeMode && findGlyphHit st.font (cp % 65536)) = true) :
    ∃ w h2, 1 ≤ w ∧
      (processCodepoint texW texH cfg face fontFlags off_x off_y st cp).ctx
        = (packOne st.ctx w h2).1 ∧
      (processCodepoint texW texH cfg face fontFlags off_x off_y st cp).trace.map
          (fun t => t.rect)
        = st.trace.map (fun t => t.rect) ++ [(packOne st.ctx w h2).2] := by
  unfold processCodepoint
  rw [if_neg h]
  refine ⟨_, _, Nat.succ_le_succ (Nat.zero_le _), rfl, ?_⟩
  simp

theorem foldCp_font_spec (texW texH : ℕ) (cfg : ImFontConfig) (face : FreeTypeFace)
    (fontFlags : ℕ) (off_x off_y : ℚ) :
    ∀ (cps : List ℕ) (st : ProcState),
      ((cps.foldl (processCodepoint texW texH cfg face fontFlags off_x off_y) st).font.indexLookup
        = st.font.indexLookup)
      ∧ ((cps.foldl (processCodepoint texW texH cfg face fontFlags off_x off_y) st).font.glyphs.map
            (fun g => g.codepoint)
          = st.font.glyphs.map (fun g => g.codepoint)
            ++ (cps.filter (fun c =>
                  !(cfg.mergeMode && findGlyphHit st.font (c % 65536)))).map (fun c => c % 65536)) := by
  intro cps
  induction cps with
  | nil =>
    intro st
    simp
  | cons c rest ih =>
    intro st
    rw [List.foldl_cons, List.filter_cons]
    by_cases hskip : (cfg.mergeMode && findGlyphHit st.font (c % 65536)) = true
    · rw [processCodepoint_skip _ _ _ _ _ _ _ _ _ hskip, hskip]
      simpa using ih st
    · have hb : (!(cfg.mergeMode && findGlyphHit st.font (c % 65536))) = true := by
        simp only [Bool.not_eq_true'] at hskip ⊢
        exact Bool.not_eq_true _ ▸ (by simpa using hskip)
      obtain ⟨ih1, ih2⟩ :=
        ih (processCodepoint texW texH cfg face fontFlags off_x off_y st c)
      have hlk := processCodepoint_lookup texW texH cfg face fontFlags off_x off_y st c
      have hgl := processCodepoint_glyphs_map texW texH cfg face fontFlags off_x off_y st c hskip
      constructor
      · rw [ih1, hlk]
      · rw [if_pos hb, ih2, hgl]
        have hpred : (fun c2 =>
              !(cfg.mergeMode && findGlyphHit
                (processCodepoint texW texH cfg face fontFlags off_x off_y st c).font (c2 % 65536)))
            = (fun c2 => !(cfg.mergeMode && findGlyphHit st.font (c2 % 65536))) := by
          funext c2
          simp only [findGlyphHit, hlk]
        rw [hpred]
        simp

theorem foldCp_trace_spec (texW texH : ℕ) (cfg : ImFontConfig) (face : FreeTypeFace)
    (fontFlags : ℕ) (off_x off_y : ℚ) :
    ∀ (cps : List ℕ) (st : ProcState),
      (∀ e ∈ st.trace, e.glyph = mkGlyph texW texH cfg off_x off_y e.info e.rect e.cp) →
      ∀ e ∈ (cps.foldl (processCodepoint texW texH cfg face fontFlags off_x off_y) st).trace,
        e.glyph = mkGlyph texW texH cfg off_x off_y e.info e.rect e.cp := by
  intro cps
  induction cps with
  | nil =>
    intro st h
    simpa using h
  | cons c rest ih =>
    intro st h
    rw [List.foldl_cons]
    refine ih _ ?_
    intro e he
    rcases processCodepoint_trace_mem texW texH cfg face fontFlags off_x off_y st c e he with
      hmem | heq
    · exact h e hmem
    · exact heq

theorem foldCp_pack_inv (texW texH : ℕ) (cfg : ImFontConfig) (face : FreeTypeFace)
    (fontFlags : ℕ) (off_x off_y : ℚ) (W H : ℕ) (base : List PackRect) :
    ∀ (cps : List ℕ) (st : ProcState),
      st.ctx.width = W → st.ctx.height = H →
      PackInv W H st.ctx.sky (base ++ st.trace.map (fun t => t.rect)) →
      ((cps.foldl (processCodepoint texW texH cfg face fontFlags off_x off_y) st).ctx.width = W ∧
       (cps.foldl (processCodepoint texW texH cfg face fontFlags off_x off_y) st).ctx.height = H ∧
       PackInv W H
         (cps.foldl (processCodepoint texW texH cfg face fontFlags off_x off_y) st).ctx.sky
         (base ++ (cps.foldl (processCodepoint texW texH cfg face fontFlags off_x off_y)
            st).trace.map (fun t => t.rect))) := by
  intro cps
  induction cps with
  | nil =>
    intro st hW hH hinv
    exact ⟨hW, hH, hinv⟩
  | cons c rest ih =>
    intro st hW hH hinv
    rw [List.foldl_cons]
    by_cases hskip : (cfg.mergeMode && findGlyphHit st.font (c % 65536)) = true
    · rw [processCodepoint_skip _ _ _ _ _ _ _ _ _ hskip]
      exact ih st hW hH hinv
    · obtain ⟨w, h2, hw, hctx, htr⟩ :=
        processCodepoint_pack texW texH cfg face fontFlags off_x off_y st c hskip
      have hstep := packOne_inv st.ctx (base ++ st.trace.map (fun t => t.rect)) w h2
        hW hH hw hinv
      refine ih _ ?_ ?_ ?_
      · rw [hctx]
        exact hstep.1
      · rw [hctx]
        exact hstep.2.1
      · rw [hctx, htr, ← List.append_assoc]
        exact hstep.2.2.2

theorem processFont_glyphs_spec (texW texH extraFlags : ℕ) (cfg : ImFontConfig)
    (face : FreeTypeFace) (info : FontInfo) (ctx : PackContext) (font : ImFont) :
    ((processFont texW texH extraFlags cfg face info ctx font).font.indexLookup
      = (processFont texW texH extraFlags cfg face info ctx font).font.glyphs.map
          (fun g => g.codepoint))
    ∧ ((processFont texW texH extraFlags cfg face info ctx font).font.glyphs.map
          (fun g => g.codepoint)
        = (buildSetupFont font cfg.mergeMode (info.ascender : ℚ)
            (info.descender : ℚ)).glyphs.map (fun g => g.codepoint)
          ++ ((expandRanges (cfg.glyphRanges.getD defaultGlyphRanges)).filter
                (fun c => !(cfg.mergeMode &&
                  findGlyphHit (buildSetupFont font cfg.mergeMode (info.ascender : ℚ)
                    (info.descender : ℚ)) (c % 65536)))).map (fun c => c % 65536)) := by
  constructor
  · rfl
  · exact (foldCp_font_spec texW texH cfg face (cfg.rasterizerFlags ||| extraFlags)
      cfg.glyphOffsetX
      (cfg.glyphOffsetY + ((truncTowardZero ((buildSetupFont font cfg.mergeMode
        (info.ascender : ℚ) (info.descender : ℚ)).ascent + 1/2) : ℤ) : ℚ))
      (expandRanges (cfg.glyphRanges.getD defaultGlyphRanges))
      ⟨ctx, buildSetupFont font cfg.mergeMode (info.ascender : ℚ) (info.descender : ℚ), []⟩).2

theorem processFont_trace_spec (texW texH extraFlags : ℕ) (cfg : ImFontConfig)
    (face : FreeTypeFace) (info : FontInfo) (ctx : PackContext) (font : ImFont) :
    ∀ e ∈ (processFont texW texH extraFlags cfg face info ctx font).trace,
      e.glyph = mkGlyph texW texH cfg cfg.glyphOffsetX
        (cfg.glyphOffsetY + ((truncTowardZero ((buildSetupFont font cfg.mergeMode
          (info.ascender : ℚ) (info.descender : ℚ)).ascent + 1/2) : ℤ) : ℚ))
        e.info e.rect e.cp := by
  exact foldCp_trace_spec texW texH cfg face (cfg.rasterizerFlags ||| extraFlags)
    cfg.glyphOffsetX
    (cfg.glyphOffsetY + ((truncTowardZero ((buildSetupFont font cfg.mergeMode
      (info.ascender : ℚ) (info.descender : ℚ)).ascent + 1/2) : ℤ) : ℚ))
    (expandRanges (cfg.glyphRanges.getD defaultGlyphRanges))
    ⟨ctx, buildSetupFont font cfg.mergeMode (info.ascender : ℚ) (info.descender : ℚ), []⟩
    (by intro e he; cases he)

theorem processFont_pack_spec (texW texH extraFlags : ℕ) (cfg : ImFontConfig)
    (face : FreeTypeFace) (info : FontInfo) (ctx : PackContext) (font : ImFont)
    (W H : ℕ) (base : List PackRect)
    (hW : ctx.width = W) (hH : ctx.height = H) (hinv : PackInv W H ctx.sky base) :
    ((processFont texW texH extraFlags cfg face info ctx font).ctx.width = W ∧
     (processFont texW texH extraFlags cfg face info ctx font).ctx.height = H ∧
     PackInv W H (processFont texW texH extraFlags cfg face info ctx font).ctx.sky
       (base ++ (processFont texW texH extraFlags cfg face info ctx font).trace.map
          (fun t => t.rect))) := by
  exact foldCp_pack_inv texW texH cfg face (cfg.rasterizerFlags ||| extraFlags)
    cfg.glyphOffsetX
    (cfg.glyphOffsetY + ((truncTowardZero ((buildSetupFont font cfg.mergeMode
      (info.ascender : ℚ) (info.descender : ℚ)).ascent + 1/2) : ℤ) : ℚ))
    W H base
    (expandRanges (cfg.glyphRanges.getD defaultGlyphRanges))
    ⟨ctx, buildSetupFont font cfg.mergeMode (info.ascender : ℚ) (info.descender : ℚ), []⟩
    hW hH (by simpa using hinv)

theorem buildLoop_pack_inv (texW texH extraFlags : ℕ) (W H : ℕ) :
    ∀ (inited : List (ImFontConfig × FontInfo × FreeTypeFace)) (st : BuildLoopState),
      st.ctx.width = W → st.ctx.height = H → PackInv W H st.ctx.sky st.rects →
      ((inited.foldl (processConfig texW texH extraFlags) st).ctx.width = W ∧
       (inited.foldl (processConfig texW texH extraFlags) st).ctx.height = H ∧
       PackInv W H (inited.foldl (processConfig texW texH extraFlags) st).ctx.sky
         (inited.foldl (processConfig texW texH extraFlags) st).rects) := by
  intro inited
  induction inited with
  | nil =>
    intro st hW hH hinv
    exact ⟨hW, hH, hinv⟩
  | cons e rest ih =>
    intro st hW hH hinv
    rw [List.foldl_cons]
    have hstep := processFont_pack_spec texW texH extraFlags e.1 e.2.2 e.2.1 st.ctx
      (st.fonts.getD e.1.dstFontIdx emptyFont) W H st.rects hW hH hinv
    exact ih _ hstep.1 hstep.2.1 hstep.2.2

/- ===================== 10. Init / estimator / range lemmas ===================== -/

theorem initFonts_all_ok :
    ∀ pairs : List (ImFontConfig × FreeTypeFace),
      (∀ p ∈ pairs, p.2.initOk = true) →
      initFonts pairs = some (pairs.map (fun p =>
        (substRangesCfg p.1,
         SetPixelHeight p.1.sizePixels (p.2.metricsAt p.1.sizePixels),
         p.2))) := by
  intro pairs
  induction pairs with
  | nil =>
    intro _
    rfl
  | cons p rest ih =>
    intro h
    obtain ⟨cfg, face⟩ := p
    have hok : face.initOk = true := h (cfg, face) (by simp)
    show initFonts ((cfg, face) :: rest) = _
    unfold initFonts
    rw [if_pos hok, ih (fun q hq => h q (by simp [hq]))]
    simp

theorem initFonts_none_of_bad :
    ∀ pairs : List (ImFontConfig × FreeTypeFace),
      (∃ p ∈ pairs, p.2.initOk = false) →
      initFonts pairs = none := by
  intro pairs
  induction pairs with
  | nil =>
    intro h
    simp at h
  | cons p rest ih =>
    intro h
    obtain ⟨cfg, face⟩ := p
    show initFonts ((cfg, face) :: rest) = none
    unfold initFonts
    by_cases hok : face.initOk = true
    · rw [if_pos hok]
      obtain ⟨q, hq, hbad⟩ := h
      rcases List.mem_cons.mp hq with hq | hq
      · subst hq
        rw [hok] at hbad
        cases hbad
      · rw [ih ⟨q, hq, hbad⟩]
    · rw [if_neg hok]

theorem upperPow2Go_spec :
    ∀ fuel v, v ≤ fuel + 1 →
      (∃ k, upperPow2Go fuel v = 2 ^ k) ∧ v ≤ upperPow2Go fuel v := by
  intro fuel
  induction fuel with
  | zero =>
    intro v hv
    exact ⟨⟨0, rfl⟩, by simpa [upperPow2Go] using hv⟩
  | succ f ih =>
    intro v hv
    show (∃ k, (if v ≤ 1 then 1 else 2 * upperPow2Go f ((v + 1) / 2)) = 2 ^ k) ∧
      v ≤ (if v ≤ 1 then 1 else 2 * upperPow2Go f ((v + 1) / 2))
    by_cases h1 : v ≤ 1
    · rw [if_pos h1]
      exact ⟨⟨0, rfl⟩, h1⟩
    · rw [if_neg h1]
      obtain ⟨⟨k, hk⟩, hle⟩ := ih ((v + 1) / 2) (by omega)
      refine ⟨⟨k + 1, ?_⟩, ?_⟩
      · rw [hk, pow_succ]
        ring
      · omega

theorem ImUpperPowerOfTwo_spec (v : ℕ) :
    (∃ k, ImUpperPowerOfTwo v = 2 ^ k) ∧ v ≤ ImUpperPowerOfTwo v :=
  upperPow2Go_spec v v (by omega)

theorem expandRanges_length :
    ∀ rs : List (ℕ × ℕ),
      (expandRanges rs).length = (rs.map (fun p => p.2 + 1 - p.1)).sum := by
  intro rs
  induction rs with
  | nil => rfl
  | cons p rest ih =>
    show (List.range' p.1 (p.2 + 1 - p.1) ++ expandRanges rest).length = _
    simp [List.length_range', ih]

theorem expandRanges_lt :
    ∀ rs : List (ℕ × ℕ), (∀ p ∈ rs, p.2 < 65536) →
      ∀ c ∈ expandRanges rs, c < 65536 := by
  intro rs
  induction rs with
  | nil =>
    intro _ c hc
    cases hc
  | cons p rest ih =>
    intro h c hc
    rcases List.mem_append.mp hc with hc | hc
    · obtain ⟨h1, h2⟩ := List.mem_range'_1.mp hc
      have := h p (by simp)
      omega
    · exact ih (fun q hq => h q (by simp [hq])) c hc

theorem packAll_inv (W H : ℕ) (sizes : List (ℕ × ℕ)) (hs : ∀ p ∈ sizes, 1 ≤ p.1) :
    (packAll (stbrp_init_target W H) sizes).1.width = W ∧
    (packAll (stbrp_init_target W H) sizes).1.height = H ∧
    PackInv W H (packAll (stbrp_init_target W H) sizes).1.sky
      (packAll (stbrp_init_target W H) sizes).2 := by
  refine packFold_inv sizes ((stbrp_init_target W H), []) rfl rfl hs ?_
  constructor
  · intro r hr
    cases hr
  · exact List.Pairwise.nil

/- ===================== 11. Claim theorems ===================== -/

/-- C2 counterexample: the claim says `SetPixelHeight` rounds the 1/64-pixel
metrics to the nearest integer (half away from zero).  At a raw ascender of
769 (769/64 = 12.015625) the code's `FT_CEIL` yields 13 while
round-to-nearest yields 12, so the claimed convention is not the one the code
applies. -/
theorem C2_counterexample :
    (SetPixelHeight 16 ⟨769, 769, 769, 769⟩).ascender = 13
    ∧ roundHalfAwayDiv64 769 = 12
    ∧ (SetPixelHeight 16 ⟨769, 769, 769, 769⟩).ascender ≠ roundHalfAwayDiv64 769 := by
  decide

/-- C2 (amended): `SetPixelHeight` derives all five metrics
(ascender, descender, line-spacing, line-gap, max-advance-width) from the
1/64-pixel fixed-point values with one and the same conversion, the source's
`FT_CEIL` macro — which is ceiling division by 64 (neither truncation nor
round-to-nearest): `FT_CEIL x` is the unique integer with
`x ≤ 64 * FT_CEIL x < x + 64`, the bit-masked macro text agrees with it, and
800/64 = 12.5 yields 13 as the claim's example demands. -/
theorem C2_amended : ∀ (p : ℕ) (m : FTSizeMetrics),
    ((SetPixelHeight p m).ascender = FT_CEIL m.ascender
    ∧ (SetPixelHeight p m).descender = FT_CEIL m.descender
    ∧ (SetPixelHeight p m).lineSpacing = FT_CEIL m.height
    ∧ (SetPixelHeight p m).lineGap = FT_CEIL (m.height - m.ascender + m.descender)
    ∧ (SetPixelHeight p m).maxAdvanceWidth = FT_CEIL m.max_advance)
    ∧ (∀ x : ℤ, FT_CEIL_masked x = FT_CEIL x ∧ x ≤ 64 * FT_CEIL x ∧ 64 * FT_CEIL x < x + 64)
    ∧ FT_CEIL 800 = 13 := by
  intro p m
  refine ⟨⟨rfl, rfl, rfl, rfl, rfl⟩, ?_, by decide⟩
  intro x
  exact ⟨FT_CEIL_masked_eq x, (FT_CEIL_bounds x).1, (FT_CEIL_bounds x).2⟩

/-- C4 counterexample: the claim infers from the pitch assertion that every
copied byte lies within the 256×256 buffer capacity.  A bitmap with pitch 256
and 257 rows passes the assertion (`pitch ≤ MaxWidth`), yet the copy spans
`256 × 257 = 65792 > 65536` bytes — the assertion alone does not bound the
copy because the row count is never checked. -/
theorem C4_counterexample :
    rasterAssertOk ⟨256, 257, 256⟩ = true
    ∧ copiedBytes ⟨256, 257, 256⟩ = 65792
    ∧ glyphBitmapCapacity = 65536
    ∧ ¬ copiedBytes ⟨256, 257, 256⟩ ≤ glyphBitmapCapacity := by
  decide

/-- C4 (amended): `RasterizeGlyph` asserts only `pitch ≤ MaxWidth` (256); any
pitch exceeding the full 256×256 capacity therefore a fortiori fails the
assertion and stops the build, and the bytes copied (`pitch × height`) stay
within capacity provided the bitmap additionally has at most `MaxHeight`
rows — a condition the code itself never checks. -/
theorem C4_amended : ∀ b : GlyphBitmapDims,
    (glyphBitmapCapacity < b.pitch → rasterAssertOk b = false)
    ∧ (rasterAssertOk b = true → b.height ≤ GlyphBitmapMaxHeight →
        copiedBytes b ≤ glyphBitmapCapacity) := by
  intro b
  constructor
  · intro h
    simp only [glyphBitmapCapacity, GlyphBitmapMaxWidth, GlyphBitmapMaxHeight] at h
    simp only [rasterAssertOk, GlyphBitmapMaxWidth, decide_eq_false_iff_not]
    omega
  · intro h1 h2
    have hp : b.pitch ≤ 256 := by
      simpa [rasterAssertOk, GlyphBitmapMaxWidth] using h1
    have hh : b.height ≤ 256 := by
      simpa [GlyphBitmapMaxHeight] using h2
    show (if 0 < b.width then b.pitch * b.height else 0) ≤ glyphBitmapCapacity
    split
    · exact Nat.mul_le_mul hp hh
    · exact Nat.zero_le _

/-- C4 witness: concrete applications of `C4_amended` — a pitch beyond the
capacity fails the assertion, and an in-range bitmap's copy fits. -/
theorem C4_witness :
    rasterAssertOk ⟨300, 1, 70000⟩ = false
    ∧ copiedBytes ⟨10, 20, 10⟩ ≤ glyphBitmapCapacity :=
  ⟨(C4_amended ⟨300, 1, 70000⟩).1 (by decide),
   (C4_amended ⟨10, 20, 10⟩).2 (by decide) (by decide)⟩

theorem processFont_nonmerge_codepoints (texW texH extraFlags : ℕ) (cfg : ImFontConfig)
    (face : FreeTypeFace) (info : FontInfo) (ctx : PackContext) (font : ImFont)
    (R : List (ℕ × ℕ)) (hm : cfg.mergeMode = false) (hR : cfg.glyphRanges = some R)
    (hb : ∀ p ∈ R, p.2 < 65536) :
    (processFont texW texH extraFlags cfg face info ctx font).font.glyphs.map
        (fun g => g.codepoint)
      = expandRanges R := by
  have h := (processFont_glyphs_spec texW texH extraFlags cfg face info ctx font).2
  rw [hR] at h
  simp only [Option.getD_some] at h
  rw [hm] at h
  simp only [buildSetupFont, Bool.false_and, Bool.not_false, List.filter_true,
    if_neg (by simp : ¬ (false : Bool) = true)] at h
  simp only [List.map_nil, List.nil_append] at h
  rw [h]
  calc (expandRanges R).map (fun c => c % 65536)
      = (expandRanges R).map id := by
        apply List.map_congr_left
        intro c hc
        exact Nat.mod_eq_of_lt (expandRanges_lt R hb c hc)
    _ = expandRanges R := List.map_id _

theorem processFont_merge_codepoints (texW texH extraFlags : ℕ) (cfg : ImFontConfig)
    (face : FreeTypeFace) (info : FontInfo) (ctx : PackContext) (font : ImFont)
    (R : List (ℕ × ℕ)) (hm : cfg.mergeMode = true) (hR : cfg.glyphRanges = some R)
    (hb : ∀ p ∈ R, p.2 < 65536) :
    (processFont texW texH extraFlags cfg face info ctx font).font.glyphs.map
        (fun g => g.codepoint)
      = font.glyphs.map (fun g => g.codepoint)
        ++ (expandRanges R).filter (fun c => !(font.indexLookup.elem c)) := by
  have h := (processFont_glyphs_spec texW texH extraFlags cfg face info ctx font).2
  rw [hR] at h
  simp only [Option.getD_some] at h
  have hsetup : buildSetupFont font cfg.mergeMode ((info.ascender : ℤ) : ℚ)
      ((info.descender : ℤ) : ℚ) = font := by
    rw [hm]
    rfl
  rw [hsetup, hm] at h
  simp only [Bool.true_and, findGlyphHit] at h
  rw [h]
  congr 1
  have hfc : (expandRanges R).filter (fun c => !(font.indexLookup.elem (c % 65536)))
      = (expandRanges R).filter (fun c => !(font.indexLookup.elem c)) := by
    apply List.filter_congr
    intro c hc
    rw [Nat.mod_eq_of_lt (expandRanges_lt R hb c hc)]
  rw [hfc]
  calc ((expandRanges R).filter (fun c => !(font.indexLookup.elem c))).map (fun c => c % 65536)
      = ((expandRanges R).filter (fun c => !(font.indexLookup.elem c))).map id := by
        apply List.map_congr_left
        intro c hc
        exact Nat.mod_eq_of_lt
          (expandRanges_lt R hb c (List.mem_of_mem_filter hc))
    _ = _ := List.map_id _

/-- C10: a completed font pass appends exactly one glyph entry per visited
code point — regardless of rasterization or packing outcome, whose results
the loop never checks.  Without merge mode the glyph table size is the sum of
`(high - low + 1)` over the config's ranges; in merge mode it grows by the
number of requested code points not already present in the destination
font. -/
theorem C10_appended_count : ∀ (texW texH extraFlags : ℕ) (cfg : ImFontConfig)
    (face : FreeTypeFace) (info : FontInfo) (ctx : PackContext) (font : ImFont)
    (R : List (ℕ × ℕ)),
    cfg.glyphRanges = some R →
    (∀ p ∈ R, p.1 ≤ p.2) →
    (∀ p ∈ R, p.2 < 65536) →
    font.indexLookup = font.glyphs.map (fun g => g.codepoint) →
    ((cfg.mergeMode = false →
        (processFont texW texH extraFlags cfg face info ctx font).font.glyphs.length
          = (R.map (fun p => p.2 - p.1 + 1)).sum)
    ∧ (cfg.mergeMode = true →
        (processFont texW texH extraFlags cfg face info ctx font).font.glyphs.length
          = font.glyphs.length
            + (expandRanges R).countP
                (fun c => !((font.glyphs.map (fun g => g.codepoint)).elem c)))) := by
  intro texW texH extraFlags cfg face info ctx font R hR hwf hb hsync
  constructor
  · intro hm
    have h := processFont_nonmerge_codepoints texW texH extraFlags cfg face info ctx font
      R hm hR hb
    calc (processFont texW texH extraFlags cfg face info ctx font).font.glyphs.length
        = ((processFont texW texH extraFlags cfg face info ctx font).font.glyphs.map
            (fun g => g.codepoint)).length := (List.length_map _ _).symm
      _ = (expandRanges R).length := by rw [h]
      _ = (R.map (fun p => p.2 + 1 - p.1)).sum := expandRanges_length R
      _ = (R.map (fun p => p.2 - p.1 + 1)).sum := by
          congr 1
          apply List.map_congr_left
          intro p hp
          have := hwf p hp
          omega
  · intro hm
    have h := processFont_merge_codepoints texW texH extraFlags cfg face info ctx font
      R hm hR hb
    simp only [← hsync]
    calc (processFont texW texH extraFlags cfg face info ctx font).font.glyphs.length
        = ((processFont texW texH extraFlags cfg face info ctx font).font.glyphs.map
            (fun g => g.codepoint)).length := (List.length_map _ _).symm
      _ = (font.glyphs.map (fun g => g.codepoint)).length
          + ((expandRanges R).filter (fun c => !(font.indexLookup.elem c))).length := by
          rw [h, List.length_append]
      _ = font.glyphs.length + (expandRanges R).countP
            (fun c => !(font.indexLookup.elem c)) := by
          rw [List.length_map, List.countP_eq_length_filter]

/-- C10 witness: a non-merge pass over range `[10, 12]` (with a face whose
glyph loads all fail) appends exactly 3 entries; a merge pass over `[65, 67]`
into a font already holding codepoint 65 appends exactly 2. -/
theorem C10_witness :
    (processFont 8 8 0
        ⟨16, false, false, 0, 0, 0, false, some [(10, 12)], 0, 0⟩
        ⟨true, fun _ => ⟨0, 0, 0, 0⟩, fun _ => 0, fun _ _ => none⟩
        ⟨16, 0, 0, 0, 0, 0⟩ (stbrp_init_target 8 8) emptyFont).font.glyphs.length = 3
    ∧ (processFont 8 8 0
        ⟨16, true, false, 0, 0, 0, false, some [(65, 67)], 0, 0⟩
        ⟨true, fun _ => ⟨0, 0, 0, 0⟩, fun _ => 0, fun _ _ => none⟩
        ⟨16, 0, 0, 0, 0, 0⟩ (stbrp_init_target 8 8)
        ⟨[⟨65, 0, 0, 0, 0, 0, 0, 0, 0, 0⟩], [65], 0, 0⟩).font.glyphs.length
      = (⟨[⟨65, 0, 0, 0, 0, 0, 0, 0, 0, 0⟩], [65], 0, 0⟩ : ImFont).glyphs.length + 2 := by
  constructor
  · have h := (C10_appended_count 8 8 0
      ⟨16, false, false, 0, 0, 0, false, some [(10, 12)], 0, 0⟩
      ⟨true, fun _ => ⟨0, 0, 0, 0⟩, fun _ => 0, fun _ _ => none⟩
      ⟨16, 0, 0, 0, 0, 0⟩ (stbrp_init_target 8 8) emptyFont
      [(10, 12)] rfl (by decide) (by decide) rfl).1 rfl
    rw [h]
    decide
  · have h := (C10_appended_count 8 8 0
      ⟨16, true, false, 0, 0, 0, false, some [(65, 67)], 0, 0⟩
      ⟨true, fun _ => ⟨0, 0, 0, 0⟩, fun _ => 0, fun _ _ => none⟩
      ⟨16, 0, 0, 0, 0, 0⟩ (stbrp_init_target 8 8)
      ⟨[⟨65, 0, 0, 0, 0, 0, 0, 0, 0, 0⟩], [65], 0, 0⟩
      [(65, 67)] rfl (by decide) (by decide) (by decide)).2 rfl
    rw [h]
    decide

/-- C1 counterexample: a face whose character map maps every code point to
glyph index 0 (no mapping; index 0 loads the `.notdef` glyph).  The claim
says the build appends no glyph entry for such a code point; in fact the
build reports no error (it returns success) but appends one entry carrying
codepoint 65 — the per-codepoint loop never consults the rasterizer's
"not found" outcome. -/
theorem C1_counterexample :
    (BuildFontAtlas
        ⟨[⟨16, false, false, 0, 0, 0, false, some [(65, 65)], 0, 0⟩], [], 0, 0, 0, false,
          [emptyFont]⟩
        [⟨true, fun _ => ⟨0, 0, 0, 0⟩, fun _ => 0, fun _ _ => some ⟨0, 0, 0, 0, 0, 0⟩⟩]
        0).ok = true
    ∧ ((BuildFontAtlas
        ⟨[⟨16, false, false, 0, 0, 0, false, some [(65, 65)], 0, 0⟩], [], 0, 0, 0, false,
          [emptyFont]⟩
        [⟨true, fun _ => ⟨0, 0, 0, 0⟩, fun _ => 0, fun _ _ => some ⟨0, 0, 0, 0, 0, 0⟩⟩]
        0).atlas.fonts.getD 0 emptyFont).glyphs.map (fun g => g.codepoint) = [65] := by
  decide

/-- C1 (amended): a code point with no mapping is indeed no error — the pass
completes — but it is not skipped: for every face whatsoever (mapped or not),
a non-merge pass appends exactly one entry per occurrence of the code point
in its ranges, so a single range containing `cp` yields one entry for `cp`
and overlapping duplicate ranges yield two, never zero. -/
theorem C1_amended : ∀ (texW texH extraFlags : ℕ) (cfgS cfgD : ImFontConfig)
    (face : FreeTypeFace) (info : FontInfo) (ctx ctx2 : PackContext) (font : ImFont)
    (la ha cp : ℕ),
    cfgS.mergeMode = false → cfgS.glyphRanges = some [(la, ha)] →
    cfgD.mergeMode = false → cfgD.glyphRanges = some [(la, ha), (la, ha)] →
    la ≤ cp → cp ≤ ha → ha < 65536 →
    ((((processFont texW texH extraFlags cfgS face info ctx font).font.glyphs.map
        (fun g => g.codepoint)).count cp = 1)
    ∧ (((processFont texW texH extraFlags cfgD face info ctx2 font).font.glyphs.map
        (fun g => g.codepoint)).count cp = 2)) := by
  intro texW texH extraFlags cfgS cfgD face info ctx ctx2 font la ha cp
  intro hmS hRS hmD hRD hla hha hb
  have hbound : ∀ p ∈ [(la, ha)], p.2 < 65536 := by
    intro p hp
    simp at hp
    subst hp
    simpa using hb
  have hbound2 : ∀ p ∈ [(la, ha), (la, ha)], p.2 < 65536 := by
    intro p hp
    simp at hp
    subst hp
    simpa using hb
  have hmem : cp ∈ List.range' la (ha + 1 - la) :=
    List.mem_range'_1.mpr ⟨hla, by omega⟩
  have hcount1 : (List.range' la (ha + 1 - la)).count cp = 1 :=
    List.count_eq_one_of_mem (List.nodup_range' la (ha + 1 - la)) hmem
  constructor
  · have h := processFont_nonmerge_codepoints texW texH extraFlags cfgS face info ctx font
      [(la, ha)] hmS hRS hbound
    rw [h]
    have hx : expandRanges [(la, ha)] = List.range' la (ha + 1 - la) := by
      simp [expandRanges]
    rw [hx]
    exact hcount1
  · have h := processFont_nonmerge_codepoints texW texH extraFlags cfgD face info ctx2 font
      [(la, ha), (la, ha)] hmD hRD hbound2
    rw [h]
    have hx : expandRanges [(la, ha), (la, ha)]
        = List.range' la (ha + 1 - la) ++ List.range' la (ha + 1 - la) := by
      simp [expandRanges]
    rw [hx, List.count_append, hcount1]

/-- C1 witness: a concrete unmapped face over ranges `[65,66]` and the
duplicated `[65,66],[65,66]` — codepoint 65 receives one and two entries
respectively. -/
theorem C1_witness :
    (((processFont 8 8 0
        ⟨16, false, false, 0, 0, 0, false, some [(65, 66)], 0, 0⟩
        ⟨true, fun _ => ⟨0, 0, 0, 0⟩, fun _ => 0, fun _ _ => some ⟨0, 0, 0, 0, 0, 0⟩⟩
        ⟨16, 0, 0, 0, 0, 0⟩ (stbrp_init_target 8 8) emptyFont).font.glyphs.map
        (fun g => g.codepoint)).count 65 = 1)
    ∧ (((processFont 8 8 0
        ⟨16, false, false, 0, 0, 0, false, some [(65, 66), (65, 66)], 0, 0⟩
        ⟨true, fun _ => ⟨0, 0, 0, 0⟩, fun _ => 0, fun _ _ => some ⟨0, 0, 0, 0, 0, 0⟩⟩
        ⟨16, 0, 0, 0, 0, 0⟩ (stbrp_init_target 8 8) emptyFont).font.glyphs.map
        (fun g => g.codepoint)).count 65 = 2) :=
  C1_amended 8 8 0
    ⟨16, false, false, 0, 0, 0, false, some [(65, 66)], 0, 0⟩
    ⟨16, false, false, 0, 0, 0, false, some [(65, 66), (65, 66)], 0, 0⟩
    ⟨true, fun _ => ⟨0, 0, 0, 0⟩, fun _ => 0, fun _ _ => some ⟨0, 0, 0, 0, 0, 0⟩⟩
    ⟨16, 0, 0, 0, 0, 0⟩ (stbrp_init_target 8 8) (stbrp_init_target 8 8) emptyFont
    65 66 65 rfl rfl rfl rfl (by decide) (by decide) (by decide)

/-- C7: building font A alone (non-merge, range `[la, ha]`) and then running
font B in merge mode into A's table over the disjoint range `[lb, hb]` yields
`(ha-la+1) + (hb-lb+1)` entries with pairwise distinct codepoints, and
re-running a merge pass over A's own range (fully covered by A's codepoints)
appends zero new entries. -/
theorem C7_merge_scenario : ∀ (texW texH extraFlags : ℕ)
    (cfgA cfgB cfgB2 : ImFontConfig) (faceA faceB faceC : FreeTypeFace)
    (infoA infoB infoC : FontInfo) (ctxA ctxB ctxC : PackContext) (font : ImFont)
    (la ha lb hb : ℕ),
    cfgA.mergeMode = false → cfgA.glyphRanges = some [(la, ha)] →
    cfgB.mergeMode = true → cfgB.glyphRanges = some [(lb, hb)] →
    cfgB2.mergeMode = true → cfgB2.glyphRanges = some [(la, ha)] →
    la ≤ ha → ha < 65536 → lb ≤ hb → hb < 65536 →
    (ha < lb ∨ hb < la) →
    (((processFont texW texH extraFlags cfgB faceB infoB ctxB
        (processFont texW texH extraFlags cfgA faceA infoA ctxA font).font).font.glyphs.length
      = (ha - la + 1) + (hb - lb + 1))
    ∧ ((processFont texW texH extraFlags cfgB faceB infoB ctxB
        (processFont texW texH extraFlags cfgA faceA infoA ctxA font).font).font.glyphs.map
          (fun g => g.codepoint)).Nodup
    ∧ ((processFont texW texH extraFlags cfgB2 faceC infoC ctxC
        (processFont texW texH extraFlags cfgB faceB infoB ctxB
          (processFont texW texH extraFlags cfgA faceA infoA ctxA font).font).font).font.glyphs.length
      = (processFont texW texH extraFlags cfgB faceB infoB ctxB
          (processFont texW texH extraFlags cfgA faceA infoA ctxA font).font).font.glyphs.length)) := by
  intro texW texH extraFlags cfgA cfgB cfgB2 faceA faceB faceC infoA infoB infoC
  intro ctxA ctxB ctxC font la ha lb hb
  intro hmA hRA hmB hRB hmB2 hRB2 hlha hua hlhb hub hdisj
  have hboundA : ∀ p ∈ [(la, ha)], p.2 < 65536 := by
    intro p hp
    simp at hp
    subst hp
    simpa using hua
  have hboundB : ∀ p ∈ [(lb, hb)], p.2 < 65536 := by
    intro p hp
    simp at hp
    subst hp
    simpa using hub
  have hxA : expandRanges [(la, ha)] = List.range' la (ha + 1 - la) := by
    simp [expandRanges]
  have hxB : expandRanges [(lb, hb)] = List.range' lb (hb + 1 - lb) := by
    simp [expandRanges]
  -- font A's table
  have hA : (processFont texW texH extraFlags cfgA faceA infoA ctxA font).font.glyphs.map
      (fun g => g.codepoint) = List.range' la (ha + 1 - la) := by
    rw [processFont_nonmerge_codepoints texW texH extraFlags cfgA faceA infoA ctxA font
      [(la, ha)] hmA hRA hboundA, hxA]
  have hAlk : (processFont texW texH extraFlags cfgA faceA infoA ctxA font).font.indexLookup
      = List.range' la (ha + 1 - la) := by
    rw [(processFont_glyphs_spec texW texH extraFlags cfgA faceA infoA ctxA font).1, hA]
  -- merge pass keeps every codepoint of the disjoint range
  have hfilterB : (expandRanges [(lb, hb)]).filter
      (fun c => !((processFont texW texH extraFlags cfgA faceA infoA ctxA
        font).font.indexLookup.elem c)) = List.range' lb (hb + 1 - lb) := by
    rw [hxB]
    apply List.filter_eq_self.mpr
    intro c hc
    obtain ⟨hc1, hc2⟩ := List.mem_range'_1.mp hc
    have hnot : ¬ c ∈ (processFont texW texH extraFlags cfgA faceA infoA ctxA
        font).font.indexLookup := by
      rw [hAlk]
      intro hmem
      obtain ⟨hd1, hd2⟩ := List.mem_range'_1.mp hmem
      rcases hdisj with hd | hd <;> omega
    cases helem : List.elem c (processFont texW texH extraFlags cfgA faceA infoA ctxA
        font).font.indexLookup with
    | false => rfl
    | true => exact absurd (List.elem_iff.mp helem) hnot
  have hAB : (processFont texW texH extraFlags cfgB faceB infoB ctxB
      (processFont texW texH extraFlags cfgA faceA infoA ctxA font).font).font.glyphs.map
        (fun g => g.codepoint)
      = List.range' la (ha + 1 - la) ++ List.range' lb (hb + 1 - lb) := by
    rw [processFont_merge_codepoints texW texH extraFlags cfgB faceB infoB ctxB _
      [(lb, hb)] hmB hRB hboundB, hA, hfilterB]
  have hABlk : (processFont texW texH extraFlags cfgB faceB infoB ctxB
      (processFont texW texH extraFlags cfgA faceA infoA ctxA font).font).font.indexLookup
      = List.range' la (ha + 1 - la) ++ List.range' lb (hb + 1 - lb) := by
    rw [(processFont_glyphs_spec texW texH extraFlags cfgB faceB infoB ctxB _).1, hAB]
  refine ⟨?_, ?_, ?_⟩
  · calc (processFont texW texH extraFlags cfgB faceB infoB ctxB
        (processFont texW texH extraFlags cfgA faceA infoA ctxA font).font).font.glyphs.length
        = ((processFont texW texH extraFlags cfgB faceB infoB ctxB
            (processFont texW texH extraFlags cfgA faceA infoA ctxA font).font).font.glyphs.map
              (fun g => g.codepoint)).length := (List.length_map _ _).symm
      _ = (List.range' la (ha + 1 - la) ++ List.range' lb (hb + 1 - lb)).length := by rw [hAB]
      _ = (ha - la + 1) + (hb - lb + 1) := by
          simp [List.length_range']
          omega
  · rw [hAB]
    refine List.nodup_append.mpr ⟨List.nodup_range' _ _, List.nodup_range' _ _, ?_⟩
    intro a haA haB
    obtain ⟨h1, h2⟩ := List.mem_range'_1.mp haA
    obtain ⟨h3, h4⟩ := List.mem_range'_1.mp haB
    rcases hdisj with hd | hd <;> omega
  · have hfilter2 : (expandRanges [(la, ha)]).filter
        (fun c => !((processFont texW texH extraFlags cfgB faceB infoB ctxB
          (processFont texW texH extraFlags cfgA faceA infoA ctxA
            font).font).font.indexLookup.elem c)) = [] := by
      rw [hxA]
      apply List.filter_eq_nil_iff.mpr
      intro c hc
      have hmem : c ∈ (processFont texW texH extraFlags cfgB faceB infoB ctxB
          (processFont texW texH extraFlags cfgA faceA infoA ctxA
            font).font).font.indexLookup := by
        rw [hABlk]
        exact List.mem_append.mpr (Or.inl hc)
      rw [List.elem_iff.mpr hmem]
      simp
    calc (processFont texW texH extraFlags cfgB2 faceC infoC ctxC
        (processFont texW texH extraFlags cfgB faceB infoB ctxB
          (processFont texW texH extraFlags cfgA faceA infoA ctxA
            font).font).font).font.glyphs.length
        = ((processFont texW texH extraFlags cfgB2 faceC infoC ctxC
            (processFont texW texH extraFlags cfgB faceB infoB ctxB
              (processFont texW texH extraFlags cfgA faceA infoA ctxA
                font).font).font).font.glyphs.map (fun g => g.codepoint)).length :=
          (List.length_map _ _).symm
      _ = ((processFont texW texH extraFlags cfgB faceB infoB ctxB
            (processFont texW texH extraFlags cfgA faceA infoA ctxA
              font).font).font.glyphs.map (fun g => g.codepoint) ++ ([] : List ℕ)).length := by
          rw [processFont_merge_codepoints texW texH extraFlags cfgB2 faceC infoC ctxC _
            [(la, ha)] hmB2 hRB2 hboundA, hfilter2]
      _ = (processFont texW texH extraFlags cfgB faceB infoB ctxB
            (processFont texW texH extraFlags cfgA faceA infoA ctxA
              font).font).font.glyphs.length := by
          simp

/-- C7 witness: ranges `[10, 11]` and `[20, 21]`, trivial faces — the merged
table has 4 entries with distinct codepoints, and re-merging `[10, 11]`
appends nothing. -/
theorem C7_witness :
    ((processFont 8 8 0 ⟨16, true, false, 0, 0, 0, false, some [(20, 21)], 0, 0⟩
        ⟨true, fun _ => ⟨0, 0, 0, 0⟩, fun _ => 0, fun _ _ => none⟩
        ⟨16, 0, 0, 0, 0, 0⟩ (stbrp_init_target 8 8)
        (processFont 8 8 0 ⟨16, false, false, 0, 0, 0, false, some [(10, 11)], 0, 0⟩
          ⟨true, fun _ => ⟨0, 0, 0, 0⟩, fun _ => 0, fun _ _ => none⟩
          ⟨16, 0, 0, 0, 0, 0⟩ (stbrp_init_target 8 8) emptyFont).font).font.glyphs.length
      = (11 - 10 + 1) + (21 - 20 + 1))
    ∧ ((processFont 8 8 0 ⟨16, true, false, 0, 0, 0, false, some [(20, 21)], 0, 0⟩
        ⟨true, fun _ => ⟨0, 0, 0, 0⟩, fun _ => 0, fun _ _ => none⟩
        ⟨16, 0, 0, 0, 0, 0⟩ (stbrp_init_target 8 8)
        (processFont 8 8 0 ⟨16, false, false, 0, 0, 0, false, some [(10, 11)], 0, 0⟩
          ⟨true, fun _ => ⟨0, 0, 0, 0⟩, fun _ => 0, fun _ _ => none⟩
          ⟨16, 0, 0, 0, 0, 0⟩ (stbrp_init_target 8 8) emptyFont).font).font.glyphs.map
          (fun g => g.codepoint)).Nodup
    ∧ ((processFont 8 8 0 ⟨16, true, false, 0, 0, 0, false, some [(10, 11)], 0, 0⟩
        ⟨true, fun _ => ⟨0, 0, 0, 0⟩, fun _ => 0, fun _ _ => none⟩
        ⟨16, 0, 0, 0, 0, 0⟩ (stbrp_init_target 8 8)
        (processFont 8 8 0 ⟨16, true, false, 0, 0, 0, false, some [(20, 21)], 0, 0⟩
          ⟨true, fun _ => ⟨0, 0, 0, 0⟩, fun _ => 0, fun _ _ => none⟩
          ⟨16, 0, 0, 0, 0, 0⟩ (stbrp_init_target 8 8)
          (processFont 8 8 0 ⟨16, false, false, 0, 0, 0, false, some [(10, 11)], 0, 0⟩
            ⟨true, fun _ => ⟨0, 0, 0, 0⟩, fun _ => 0, fun _ _ => none⟩
            ⟨16, 0, 0, 0, 0, 0⟩ (stbrp_init_target 8 8) emptyFont).font).font).font.glyphs.length
      = (processFont 8 8 0 ⟨16, true, false, 0, 0, 0, false, some [(20, 21)], 0, 0⟩
          ⟨true, fun _ => ⟨0, 0, 0, 0⟩, fun _ => 0, fun _ _ => none⟩
          ⟨16, 0, 0, 0, 0, 0⟩ (stbrp_init_target 8 8)
          (processFont 8 8 0 ⟨16, false, false, 0, 0, 0, false, some [(10, 11)], 0, 0⟩
            ⟨true, fun _ => ⟨0, 0, 0, 0⟩, fun _ => 0, fun _ _ => none⟩
            ⟨16, 0, 0, 0, 0, 0⟩ (stbrp_init_target 8 8) emptyFont).font).font.glyphs.length) :=
  C7_merge_scenario 8 8 0
    ⟨16, false, false, 0, 0, 0, false, some [(10, 11)], 0, 0⟩
    ⟨16, true, false, 0, 0, 0, false, some [(20, 21)], 0, 0⟩
    ⟨16, true, false, 0, 0, 0, false, some [(10, 11)], 0, 0⟩
    ⟨true, fun _ => ⟨0, 0, 0, 0⟩, fun _ => 0, fun _ _ => none⟩
    ⟨true, fun _ => ⟨0, 0, 0, 0⟩, fun _ => 0, fun _ _ => none⟩
    ⟨true, fun _ => ⟨0, 0, 0, 0⟩, fun _ => 0, fun _ _ => none⟩
    ⟨16, 0, 0, 0, 0, 0⟩ ⟨16, 0, 0, 0, 0, 0⟩ ⟨16, 0, 0, 0, 0, 0⟩
    (stbrp_init_target 8 8) (stbrp_init_target 8 8) (stbrp_init_target 8 8)
    emptyFont 10 11 20 21
    rfl rfl rfl rfl rfl rfl
    (by decide) (by decide) (by decide) (by decide) (Or.inl (by decide))

/-- C5: if any face's FreeType initialization fails, `BuildFontAtlas` returns
failure and exposes no partial atlas: no texture allocation survives, the
texture extent stays zero, every destination font's glyph table is untouched,
and nothing was sent to the packer — the init loop runs before any texture or
glyph work. -/
theorem C5_init_failure_atomic : ∀ (atlas : ImFontAtlas) (faces : List FreeTypeFace)
    (extraFlags : ℕ),
    (∃ p ∈ atlas.configData.zip faces, p.2.initOk = false) →
    ((BuildFontAtlas atlas faces extraFlags).ok = false
    ∧ (BuildFontAtlas atlas faces extraFlags).atlas.texAllocated = false
    ∧ (BuildFontAtlas atlas faces extraFlags).atlas.texWidth = 0
    ∧ (BuildFontAtlas atlas faces extraFlags).atlas.texHeight = 0
    ∧ (BuildFontAtlas atlas faces extraFlags).atlas.fonts = atlas.fonts
    ∧ (BuildFontAtlas atlas faces extraFlags).rects = []) := by
  intro atlas faces extraFlags h
  have hnone := initFonts_none_of_bad (atlas.configData.zip faces) h
  simp [BuildFontAtlas, hnone]

/-- C5 witness: one config whose face fails to initialize — the build fails
and leaves the atlas fonts as they were. -/
theorem C5_witness :
    ((BuildFontAtlas
        ⟨[⟨16, false, false, 0, 0, 0, false, some [(65, 65)], 0, 0⟩], [], 0, 0, 0, false,
          [emptyFont]⟩
        [⟨false, fun _ => ⟨0, 0, 0, 0⟩, fun _ => 0, fun _ _ => none⟩] 0).ok = false)
    ∧ ((BuildFontAtlas
        ⟨[⟨16, false, false, 0, 0, 0, false, some [(65, 65)], 0, 0⟩], [], 0, 0, 0, false,
          [emptyFont]⟩
        [⟨false, fun _ => ⟨0, 0, 0, 0⟩, fun _ => 0, fun _ _ => none⟩] 0).atlas.texAllocated
      = false)
    ∧ ((BuildFontAtlas
        ⟨[⟨16, false, false, 0, 0, 0, false, some [(65, 65)], 0, 0⟩], [], 0, 0, 0, false,
          [emptyFont]⟩
        [⟨false, fun _ => ⟨0, 0, 0, 0⟩, fun _ => 0, fun _ _ => none⟩] 0).atlas.texWidth = 0)
    ∧ ((BuildFontAtlas
        ⟨[⟨16, false, false, 0, 0, 0, false, some [(65, 65)], 0, 0⟩], [], 0, 0, 0, false,
          [emptyFont]⟩
        [⟨false, fun _ => ⟨0, 0, 0, 0⟩, fun _ => 0, fun _ _ => none⟩] 0).atlas.texHeight = 0)
    ∧ ((BuildFontAtlas
        ⟨[⟨16, false, false, 0, 0, 0, false, some [(65, 65)], 0, 0⟩], [], 0, 0, 0, false,
          [emptyFont]⟩
        [⟨false, fun _ => ⟨0, 0, 0, 0⟩, fun _ => 0, fun _ _ => none⟩] 0).atlas.fonts
      = [emptyFont])
    ∧ ((BuildFontAtlas
        ⟨[⟨16, false, false, 0, 0, 0, false, some [(65, 65)], 0, 0⟩], [], 0, 0, 0, false,
          [emptyFont]⟩
        [⟨false, fun _ => ⟨0, 0, 0, 0⟩, fun _ => 0, fun _ _ => none⟩] 0).rects = []) :=
  C5_init_failure_atomic
    ⟨[⟨16, false, false, 0, 0, 0, false, some [(65, 65)], 0, 0⟩], [], 0, 0, 0, false,
      [emptyFont]⟩
    [⟨false, fun _ => ⟨0, 0, 0, 0⟩, fun _ => 0, fun _ _ => none⟩] 0
    ⟨(⟨16, false, false, 0, 0, 0, false, some [(65, 65)], 0, 0⟩,
      ⟨false, fun _ => ⟨0, 0, 0, 0⟩, fun _ => 0, fun _ _ => none⟩),
     List.mem_cons_self _ _, rfl⟩

/-- C9: with every face initializing, the build's texture height is exactly
the grid estimate — rectangles per row from the texture width and the
`(maxGlyphSize.x + 1)` cell width, rows needed for the glyph count plus the
reserved custom rectangles, times the `(maxGlyphSize.y + 1)` cell height —
rounded up to the next power of two; hence it is a power of two that is at
least the estimated minimum. -/
theorem C9_tex_height : ∀ (atlas : ImFontAtlas) (faces : List FreeTypeFace)
    (extraFlags : ℕ),
    (∀ p ∈ atlas.configData.zip faces, p.2.initOk = true) →
    ((BuildFontAtlas atlas faces extraFlags).atlas.texHeight
        = ImUpperPowerOfTwo (texHeightEstimate
            (chooseTexWidth atlas.texDesiredWidth (totalGlyphsCount (initedCanon atlas faces)))
            (maxGlyphSizeX (initedCanon atlas faces)).toNat
            (maxGlyphSizeY (initedCanon atlas faces)).toNat
            ((totalGlyphsCount (initedCanon atlas faces)).toNat
              + (registerDefaultCustomRects atlas.customRects).length))
    ∧ (∃ k, (BuildFontAtlas atlas faces extraFlags).atlas.texHeight = 2 ^ k)
    ∧ texHeightEstimate
        (chooseTexWidth atlas.texDesiredWidth (totalGlyphsCount (initedCanon atlas faces)))
        (maxGlyphSizeX (initedCanon atlas faces)).toNat
        (maxGlyphSizeY (initedCanon atlas faces)).toNat
        ((totalGlyphsCount (initedCanon atlas faces)).toNat
          + (registerDefaultCustomRects atlas.customRects).length)
      ≤ (BuildFontAtlas atlas faces extraFlags).atlas.texHeight) := by
  intro atlas faces extraFlags hall
  have hsome := initFonts_all_ok (atlas.configData.zip faces) hall
  have hth : (BuildFontAtlas atlas faces extraFlags).atlas.texHeight
      = ImUpperPowerOfTwo (texHeightEstimate
          (chooseTexWidth atlas.texDesiredWidth (totalGlyphsCount (initedCanon atlas faces)))
          (maxGlyphSizeX (initedCanon atlas faces)).toNat
          (maxGlyphSizeY (initedCanon atlas faces)).toNat
          ((totalGlyphsCount (initedCanon atlas faces)).toNat
            + (registerDefaultCustomRects atlas.customRects).length)) := by
    simp only [BuildFontAtlas, hsome, initedCanon]
  refine ⟨hth, ?_, ?_⟩
  · obtain ⟨k, hk⟩ := (ImUpperPowerOfTwo_spec _).1
    exact ⟨k, by rw [hth, hk]⟩
  · rw [hth]
    exact (ImUpperPowerOfTwo_spec _).2

/-- C9 witness: a single small font request — the hypotheses hold by
computation and the height is the rounded-up estimate. -/
theorem C9_witness :
    ((BuildFontAtlas
        ⟨[⟨16, false, false, 0, 0, 0, false, some [(65, 70)], 0, 0⟩], [], 0, 0, 0, false,
          [emptyFont]⟩
        [⟨true, fun _ => ⟨640, -128, 832, 512⟩, fun _ => 0, fun _ _ => none⟩]
        0).atlas.texHeight
      = ImUpperPowerOfTwo (texHeightEstimate
          (chooseTexWidth 0 (totalGlyphsCount (initedCanon
            ⟨[⟨16, false, false, 0, 0, 0, false, some [(65, 70)], 0, 0⟩], [], 0, 0, 0, false,
              [emptyFont]⟩
            [⟨true, fun _ => ⟨640, -128, 832, 512⟩, fun _ => 0, fun _ _ => none⟩])))
          (maxGlyphSizeX (initedCanon
            ⟨[⟨16, false, false, 0, 0, 0, false, some [(65, 70)], 0, 0⟩], [], 0, 0, 0, false,
              [emptyFont]⟩
            [⟨true, fun _ => ⟨640, -128, 832, 512⟩, fun _ => 0, fun _ _ => none⟩])).toNat
          (maxGlyphSizeY (initedCanon
            ⟨[⟨16, false, false, 0, 0, 0, false, some [(65, 70)], 0, 0⟩], [], 0, 0, 0, false,
              [emptyFont]⟩
            [⟨true, fun _ => ⟨640, -128, 832, 512⟩, fun _ => 0, fun _ _ => none⟩])).toNat
          ((totalGlyphsCount (initedCanon
            ⟨[⟨16, false, false, 0, 0, 0, false, some [(65, 70)], 0, 0⟩], [], 0, 0, 0, false,
              [emptyFont]⟩
            [⟨true, fun _ => ⟨640, -128, 832, 512⟩, fun _ => 0, fun _ _ => none⟩])).toNat
            + (registerDefaultCustomRects []).length)))
    ∧ (∃ k, (BuildFontAtlas
        ⟨[⟨16, false, false, 0, 0, 0, false, some [(65, 70)], 0, 0⟩], [], 0, 0, 0, false,
          [emptyFont]⟩
        [⟨true, fun _ => ⟨640, -128, 832, 512⟩, fun _ => 0, fun _ _ => none⟩]
        0).atlas.texHeight = 2 ^ k) := by
  have h := C9_tex_height
    ⟨[⟨16, false, false, 0, 0, 0, false, some [(65, 70)], 0, 0⟩], [], 0, 0, 0, false,
      [emptyFont]⟩
    [⟨true, fun _ => ⟨640, -128, 832, 512⟩, fun _ => 0, fun _ _ => none⟩] 0
    (by
      intro p hp
      simp at hp
      subst hp
      rfl)
  exact ⟨h.1, h.2.1⟩

/-- C3: in every build, the rectangles the packer reports as packed
(custom rectangles and glyph rectangles alike — each glyph's blit region is
contained in its rectangle) are pairwise non-overlapping and lie fully inside
the texture: `x + w ≤ texWidth` and `y + h ≤ texHeight`. -/
theorem C3_packed_rects : ∀ (atlas : ImFontAtlas) (faces : List FreeTypeFace)
    (extraFlags : ℕ),
    (∀ p ∈ atlas.customRects, 1 ≤ p.1) →
    ((∀ r ∈ (BuildFontAtlas atlas faces extraFlags).rects, r.wasPacked = true →
        r.x + r.w ≤ (BuildFontAtlas atlas faces extraFlags).atlas.texWidth
        ∧ r.y + r.h ≤ (BuildFontAtlas atlas faces extraFlags).atlas.texHeight)
    ∧ (BuildFontAtlas atlas faces extraFlags).rects.Pairwise
        (fun a b => a.wasPacked = true → b.wasPacked = true → ¬ rectsOverlap a b)) := by
  intro atlas faces extraFlags hcr
  cases hinit : initFonts (atlas.configData.zip faces) with
  | none =>
    simp only [BuildFontAtlas, hinit]
    constructor
    · intro r hr
      cases hr
    · exact List.Pairwise.nil
  | some inited =>
    have hsz : ∀ p ∈ registerDefaultCustomRects atlas.customRects, 1 ≤ p.1 := by
      intro p hp
      rcases List.mem_append.mp hp with hp | hp
      · exact hcr p hp
      · simp at hp
        subst hp
        decide
    have hpack := packAll_inv
      (chooseTexWidth atlas.texDesiredWidth (totalGlyphsCount inited))
      (ImUpperPowerOfTwo (texHeightEstimate
        (chooseTexWidth atlas.texDesiredWidth (totalGlyphsCount inited))
        (maxGlyphSizeX inited).toNat (maxGlyphSizeY inited).toNat
        ((totalGlyphsCount inited).toNat
          + (registerDefaultCustomRects atlas.customRects).length)))
      (registerDefaultCustomRects atlas.customRects) hsz
    have hloop := buildLoop_pack_inv
      (chooseTexWidth atlas.texDesiredWidth (totalGlyphsCount inited))
      (ImUpperPowerOfTwo (texHeightEstimate
        (chooseTexWidth atlas.texDesiredWidth (totalGlyphsCount inited))
        (maxGlyphSizeX inited).toNat (maxGlyphSizeY inited).toNat
        ((totalGlyphsCount inited).toNat
          + (registerDefaultCustomRects atlas.customRects).length)))
      extraFlags
      (chooseTexWidth atlas.texDesiredWidth (totalGlyphsCount inited))
      (ImUpperPowerOfTwo (texHeightEstimate
        (chooseTexWidth atlas.texDesiredWidth (totalGlyphsCount inited))
        (maxGlyphSizeX inited).toNat (maxGlyphSizeY inited).toNat
        ((totalGlyphsCount inited).toNat
          + (registerDefaultCustomRects atlas.customRects).length)))
      inited
      ⟨(packAll (stbrp_init_target
          (chooseTexWidth atlas.texDesiredWidth (totalGlyphsCount inited))
          (ImUpperPowerOfTwo (texHeightEstimate
            (chooseTexWidth atlas.texDesiredWidth (totalGlyphsCount inited))
            (maxGlyphSizeX inited).toNat (maxGlyphSizeY inited).toNat
            ((totalGlyphsCount inited).toNat
              + (registerDefaultCustomRects atlas.customRects).length))))
          (registerDefaultCustomRects atlas.customRects)).1,
        atlas.fonts,
        (packAll (stbrp_init_target
          (chooseTexWidth atlas.texDesiredWidth (totalGlyphsCount inited))
          (ImUpperPowerOfTwo (texHeightEstimate
            (chooseTexWidth atlas.texDesiredWidth (totalGlyphsCount inited))
            (maxGlyphSizeX inited).toNat (maxGlyphSizeY inited).toNat
            ((totalGlyphsCount inited).toNat
              + (registerDefaultCustomRects atlas.customRects).length))))
          (registerDefaultCustomRects atlas.customRects)).2⟩
      hpack.1 hpack.2.1 hpack.2.2
    simp only [BuildFontAtlas, hinit]
    constructor
    · intro r hr hp
      obtain ⟨_, h2, h3, _⟩ := hloop.2.2.1 r hr hp
      exact ⟨h2, h3⟩
    · exact hloop.2.2.2

/-- C3 witness: a concrete one-font build with one caller custom rectangle —
the invariant instantiates. -/
theorem C3_witness :
    ((∀ r ∈ (BuildFontAtlas
        ⟨[⟨16, false, false, 0, 0, 0, false, some [(65, 66)], 0, 0⟩], [(3, 3)], 0, 0, 0, false,
          [emptyFont]⟩
        [⟨true, fun _ => ⟨640, -128, 832, 512⟩, fun _ => 0,
          fun _ _ => some ⟨320, 1, -6, 5, 7, 5⟩⟩] 0).rects,
        r.wasPacked = true →
        r.x + r.w ≤ (BuildFontAtlas
          ⟨[⟨16, false, false, 0, 0, 0, false, some [(65, 66)], 0, 0⟩], [(3, 3)], 0, 0, 0, false,
            [emptyFont]⟩
          [⟨true, fun _ => ⟨640, -128, 832, 512⟩, fun _ => 0,
            fun _ _ => some ⟨320, 1, -6, 5, 7, 5⟩⟩] 0).atlas.texWidth
        ∧ r.y + r.h ≤ (BuildFontAtlas
          ⟨[⟨16, false, false, 0, 0, 0, false, some [(65, 66)], 0, 0⟩], [(3, 3)], 0, 0, 0, false,
            [emptyFont]⟩
          [⟨true, fun _ => ⟨640, -128, 832, 512⟩, fun _ => 0,
            fun _ _ => some ⟨320, 1, -6, 5, 7, 5⟩⟩] 0).atlas.texHeight)
    ∧ (BuildFontAtlas
        ⟨[⟨16, false, false, 0, 0, 0, false, some [(65, 66)], 0, 0⟩], [(3, 3)], 0, 0, 0, false,
          [emptyFont]⟩
        [⟨true, fun _ => ⟨640, -128, 832, 512⟩, fun _ => 0,
          fun _ _ => some ⟨320, 1, -6, 5, 7, 5⟩⟩] 0).rects.Pairwise
        (fun a b => a.wasPacked = true → b.wasPacked = true → ¬ rectsOverlap a b)) :=
  C3_packed_rects
    ⟨[⟨16, false, false, 0, 0, 0, false, some [(65, 66)], 0, 0⟩], [(3, 3)], 0, 0, 0, false,
      [emptyFont]⟩
    [⟨true, fun _ => ⟨640, -128, 832, 512⟩, fun _ => 0, fun _ _ => some ⟨320, 1, -6, 5, 7, 5⟩⟩]
    0 (by decide)

/-- C6: for every glyph record of a font pass (pairing the appended glyph
entry with the rectangle the packer returned for it), in exact arithmetic
`u0 * texWidth` and `v0 * texHeight` recover the rectangle's origin, and
`(u1 - u0) * texWidth` is exactly the raw bitmap width the rasterizer
reported. -/
theorem C6_uv_exact : ∀ (texW texH extraFlags : ℕ) (cfg : ImFontConfig)
    (face : FreeTypeFace) (info : FontInfo) (ctx : PackContext) (font : ImFont) (i : ℕ),
    texW ≠ 0 → texH ≠ 0 →
    i < (processFont texW texH extraFlags cfg face info ctx font).trace.length →
    (((processFont texW texH extraFlags cfg face info ctx font).trace.getD i
        blankTraceEntry).glyph.u0 * (texW : ℚ)
      = (((processFont texW texH extraFlags cfg face info ctx font).trace.getD i
          blankTraceEntry).rect.x : ℚ)
    ∧ ((processFont texW texH extraFlags cfg face info ctx font).trace.getD i
        blankTraceEntry).glyph.v0 * (texH : ℚ)
      = (((processFont texW texH extraFlags cfg face info ctx font).trace.getD i
          blankTraceEntry).rect.y : ℚ)
    ∧ (((processFont texW texH extraFlags cfg face info ctx font).trace.getD i
          blankTraceEntry).glyph.u1
        - ((processFont texW texH extraFlags cfg face info ctx font).trace.getD i
          blankTraceEntry).glyph.u0) * (texW : ℚ)
      = ((processFont texW texH extraFlags cfg face info ctx font).trace.getD i
          blankTraceEntry).info.width) := by
  intro texW texH extraFlags cfg face info ctx font i hW hH hi
  have hmem : (processFont texW texH extraFlags cfg face info ctx font).trace.getD i
      blankTraceEntry ∈ (processFont texW texH extraFlags cfg face info ctx font).trace := by
    rw [List.getD_eq_getElem _ _ hi]
    exact List.getElem_mem hi
  have heq := processFont_trace_spec texW texH extraFlags cfg face info ctx font _ hmem
  rw [heq]
  simp only [mkGlyph]
  have hWq : (texW : ℚ) ≠ 0 := Nat.cast_ne_zero.mpr hW
  have hHq : (texH : ℚ) ≠ 0 := Nat.cast_ne_zero.mpr hH
  refine ⟨div_mul_cancel₀ _ hWq, div_mul_cancel₀ _ hHq, ?_⟩
  rw [div_sub_div_same, add_sub_cancel_left]
  exact div_mul_cancel₀ _ hWq

/-- C6 witness: a concrete pass with one glyph — the hypotheses hold by
computation and the UV relations instantiate at its trace record. -/
theorem C6_witness :
    (fun e : TraceEntry =>
      e.glyph.u0 * (512 : ℚ) = (e.rect.x : ℚ)
      ∧ e.glyph.v0 * (128 : ℚ) = (e.rect.y : ℚ)
      ∧ (e.glyph.u1 - e.glyph.u0) * (512 : ℚ) = e.info.width)
    ((processFont 512 128 0
        ⟨16, false, false, 0, 0, 0, false, some [(65, 65)], 0, 0⟩
        ⟨true, fun _ => ⟨640, -128, 832, 512⟩, fun _ => 1,
          fun _ _ => some ⟨320, 1, -6, 5, 7, 5⟩⟩
        ⟨16, 10, -2, 13, 1, 13⟩ (stbrp_init_target 512 128) emptyFont).trace.getD 0
      blankTraceEntry) :=
  C6_uv_exact 512 128 0
    ⟨16, false, false, 0, 0, 0, false, some [(65, 65)], 0, 0⟩
    ⟨true, fun _ => ⟨640, -128, 832, 512⟩, fun _ => 1, fun _ _ => some ⟨320, 1, -6, 5, 7, 5⟩⟩
    ⟨16, 10, -2, 13, 1, 13⟩ (stbrp_init_target 512 128) emptyFont 0
    (by decide) (by decide) (by decide)

/-- C8 (amended): every appended glyph's vertical placement is
`Y0 = OffsetY + cfg.GlyphOffset.y + (int)(dst_font->Ascent + 0.5)` and
`Y1 = Y0 + Height` — shifted by the destination font's (rounded) ascent
only; the merge-center-vertical flag is never read by this builder, so
toggling it leaves the entire font pass unchanged. -/
theorem C8_vertical_shift : ∀ (texW texH extraFlags : ℕ) (cfg : ImFontConfig)
    (face : FreeTypeFace) (info : FontInfo) (ctx : PackContext) (font : ImFont)
    (i : ℕ) (b : Bool),
    i < (processFont texW texH extraFlags cfg face info ctx font).trace.length →
    ((fun e : TraceEntry =>
        e.glyph.y0 = e.info.offsetY + cfg.glyphOffsetY
          + ((truncTowardZero ((buildSetupFont font cfg.mergeMode (info.ascender : ℚ)
              (info.descender : ℚ)).ascent + 1/2) : ℤ) : ℚ)
        ∧ e.glyph.y1 = e.glyph.y0 + e.info.height)
      ((processFont texW texH extraFlags cfg face info ctx font).trace.getD i blankTraceEntry)
    ∧ processFont texW texH extraFlags { cfg with mergeGlyphCenterV := b } face info ctx font
        = processFont texW texH extraFlags cfg face info ctx font) := by
  intro texW texH extraFlags cfg face info ctx font i b hi
  have hmem : (processFont texW texH extraFlags cfg face info ctx font).trace.getD i
      blankTraceEntry ∈ (processFont texW texH extraFlags cfg face info ctx font).trace := by
    rw [List.getD_eq_getElem _ _ hi]
    exact List.getElem_mem hi
  have heq := processFont_trace_spec texW texH extraFlags cfg face info ctx font _ hmem
  refine ⟨⟨?_, ?_⟩, rfl⟩
  · rw [heq]
    simp only [mkGlyph]
    ring
  · rw [heq]
    simp only [mkGlyph]

/-- C8 counterexample: merge mode with center-vertical alignment requested,
destination ascent 10, merged source ascender 20, all offsets zero.  The
claim's formula adds half the ascender difference and predicts a vertical
shift of 15; the code shifts by the destination ascent alone and produces
`Y0 = 10`. -/
theorem C8_counterexample :
    ((processFont 1 1 0 ⟨16, true, true, 0, 0, 0, false, some [(65, 65)], 0, 0⟩
        ⟨true, fun _ => ⟨1280, 0, 0, 0⟩, fun _ => 1, fun _ _ => some ⟨0, 0, 0, 0, 0, 0⟩⟩
        ⟨16, 20, -5, 25, 0, 10⟩ (stbrp_init_target 1 1)
        ⟨[], [], 10, -3⟩).trace.getD 0 blankTraceEntry).glyph.y0 = 10
    ∧ specVerticalShift 10 20 true true = 15
    ∧ ((10 : ℚ) ≠ 15) := by
  have hi : 0 < (processFont 1 1 0 ⟨16, true, true, 0, 0, 0, false, some [(65, 65)], 0, 0⟩
      ⟨true, fun _ => ⟨1280, 0, 0, 0⟩, fun _ => 1, fun _ _ => some ⟨0, 0, 0, 0, 0, 0⟩⟩
      ⟨16, 20, -5, 25, 0, 10⟩ (stbrp_init_target 1 1) ⟨[], [], 10, -3⟩).trace.length := by
    decide
  have hmem : (processFont 1 1 0 ⟨16, true, true, 0, 0, 0, false, some [(65, 65)], 0, 0⟩
      ⟨true, fun _ => ⟨1280, 0, 0, 0⟩, fun _ => 1, fun _ _ => some ⟨0, 0, 0, 0, 0, 0⟩⟩
      ⟨16, 20, -5, 25, 0, 10⟩ (stbrp_init_target 1 1) ⟨[], [], 10, -3⟩).trace.getD 0
      blankTraceEntry ∈ (processFont 1 1 0
        ⟨16, true, true, 0, 0, 0, false, some [(65, 65)], 0, 0⟩
        ⟨true, fun _ => ⟨1280, 0, 0, 0⟩, fun _ => 1, fun _ _ => some ⟨0, 0, 0, 0, 0, 0⟩⟩
        ⟨16, 20, -5, 25, 0, 10⟩ (stbrp_init_target 1 1) ⟨[], [], 10, -3⟩).trace := by
    rw [List.getD_eq_getElem _ _ hi]
    exact List.getElem_mem hi
  have heq := processFont_trace_spec 1 1 0
    ⟨16, true, true, 0, 0, 0, false, some [(65, 65)], 0, 0⟩
    ⟨true, fun _ => ⟨1280, 0, 0, 0⟩, fun _ => 1, fun _ _ => some ⟨0, 0, 0, 0, 0, 0⟩⟩
    ⟨16, 20, -5, 25, 0, 10⟩ (stbrp_init_target 1 1) ⟨[], [], 10, -3⟩ _ hmem
  have hinfo : ((processFont 1 1 0 ⟨16, true, true, 0, 0, 0, false, some [(65, 65)], 0, 0⟩
      ⟨true, fun _ => ⟨1280, 0, 0, 0⟩, fun _ => 1, fun _ _ => some ⟨0, 0, 0, 0, 0, 0⟩⟩
      ⟨16, 20, -5, 25, 0, 10⟩ (stbrp_init_target 1 1) ⟨[], [], 10, -3⟩).trace.getD 0
      blankTraceEntry).info
      = ⟨((0 : ℕ) : ℚ), ((0 : ℕ) : ℚ), ((0 : ℤ) : ℚ), ((-(0 : ℤ) : ℤ) : ℚ),
         ((FT_CEIL 0 : ℤ) : ℚ)⟩ := rfl
  refine ⟨?_, by norm_num [specVerticalShift], by norm_num⟩
  rw [heq, hinfo]
  simp only [mkGlyph, buildSetupFont]
  norm_num [truncTowardZero]

/-- C8 witness: concrete instantiation — the glyph's `Y0` is its raster
offset plus the truncated-rounded destination ascent, `Y1 = Y0 + Height`,
and toggling the center-vertical flag changes nothing. -/
theorem C8_witness :
    ((fun e : TraceEntry =>
        e.glyph.y0 = e.info.offsetY + (0 : ℚ)
          + ((truncTowardZero ((10 : ℚ) + 1/2) : ℤ) : ℚ)
        ∧ e.glyph.y1 = e.glyph.y0 + e.info.height)
      ((processFont 1 1 0 ⟨16, true, false, 0, 0, 0, false, some [(65, 65)], 0, 0⟩
          ⟨true, fun _ => ⟨1280, 0, 0, 0⟩, fun _ => 1, fun _ _ => some ⟨0, 0, 0, 0, 0, 0⟩⟩
          ⟨16, 20, -5, 25, 0, 10⟩ (stbrp_init_target 1 1)
          ⟨[], [], 10, -3⟩).trace.getD 0 blankTraceEntry)
    ∧ processFont 1 1 0
        { (⟨16, true, false, 0, 0, 0, false, some [(65, 65)], 0, 0⟩ : ImFontConfig) with
          mergeGlyphCenterV := true }
        ⟨true, fun _ => ⟨1280, 0, 0, 0⟩, fun _ => 1, fun _ _ => some ⟨0, 0, 0, 0, 0, 0⟩⟩
        ⟨16, 20, -5, 25, 0, 10⟩ (stbrp_init_target 1 1) ⟨[], [], 10, -3⟩
      = processFont 1 1 0 ⟨16, true, false, 0, 0, 0, false, some [(65, 65)], 0, 0⟩
        ⟨true, fun _ => ⟨1280, 0, 0, 0⟩, fun _ => 1, fun _ _ => some ⟨0, 0, 0, 0, 0, 0⟩⟩
        ⟨16, 20, -5, 25, 0, 10⟩ (stbrp_init_target 1 1) ⟨[], [], 10, -3⟩) :=
  C8_vertical_shift 1 1 0 ⟨16, true, false, 0, 0, 0, false, some [(65, 65)], 0, 0⟩
    ⟨true, fun _ => ⟨1280, 0, 0, 0⟩, fun _ => 1, fun _ _ => some ⟨0, 0, 0, 0, 0, 0⟩⟩
    ⟨16, 20, -5, 25, 0, 10⟩ (stbrp_init_target 1 1) ⟨[], [], 10, -3⟩ 0 true
    (by decide)
